import Mathlib

/-!
Verification of the reconciliation core of the auction-platform repository
(`apis/immo-api/app/scrapers`): the deduplication key, the field-level merge
(`ScraperCoordinator._deduplicate_and_merge` / `_merge_auctions`), the
persistence upsert (`_save_auctions` / `_update_record` / `_insert_record`),
the per-source run loop (`_run_scraper` / `run_all`), and the geocoding pass
(`_geocode_auctions`).

Modelling conventions (shallow embedding of the Python source):
* `Optional[str]` fields become `Option String`; Python truthiness on such a
  field (`if not merged.x and auction.x`) is `none` or `some ""` being falsy.
* `Optional[float]` price/coordinate fields become `Option Int` (the scrapes
  store integral amounts); Python truthiness makes `0` falsy, and the f-string
  rendering of an integral float `p` is `toString p ++ ".0"`.
* `hashlib.md5(...).hexdigest()` is modelled by the collision-free abstraction
  `md5Model` (the identity on the hashed content): two model hashes are equal
  exactly when the hashed strings are equal.
* `datetime.now().isoformat()` is passed in explicitly as a `now : String`
  parameter wherever the code reads the clock.
* The sqlite `auctions` table is modelled by `StoredRow` (one field per column
  the coordinator reads or writes); a `SELECT ... WHERE p` followed by
  `fetchone()` without `ORDER BY` returns the first row in storage order.
-/

namespace AuctionPlatform

/-- One `{type, name, url}` document dict from `AuctionData.documents`. -/
structure Document where
  type : String
  name : String
  url : String
deriving DecidableEq

/-- `AuctionData` from `base_scraper.py`: the canonical record one scraper
produces, with the same fields and default values as `AuctionData.__init__`. -/
structure AuctionData where
  source : String := ""
  source_id : Option String := none
  url : Option String := none
  adresse : Option String := none
  code_postal : Option String := none
  ville : Option String := none
  department : Option String := none
  latitude : Option Int := none
  longitude : Option Int := none
  type_bien : Option String := none
  surface : Option Int := none
  nb_pieces : Option Nat := none
  description : Option String := none
  description_detaillee : Option String := none
  mise_a_prix : Option Int := none
  prix_adjudication : Option Int := none
  prix_marche_estime : Option Int := none
  prix_m2_marche : Option Int := none
  tribunal : Option String := none
  avocat_nom : Option String := none
  avocat_email : Option String := none
  avocat_telephone : Option String := none
  numero_rg : Option String := none
  date_vente : Option String := none
  heure_vente : Option String := none
  dates_visite : List String := []
  photos : List String := []
  documents : List Document := []
  pv_url : Option String := none
  scraped_at : String := ""
  hash : Option String := none
deriving DecidableEq

/-- Python truthiness of an optional string: `None` and `""` are falsy. -/
def truthyStr : Option String → Bool
  | none => false
  | some s => !(s == "")

/-- Python truthiness of an optional numeric field: `None` and `0` are falsy. -/
def truthyInt : Option Int → Bool
  | none => false
  | some n => !(n == 0)

/-- Python truthiness of an optional `int` field: `None` and `0` are falsy. -/
def truthyNat : Option Nat → Bool
  | none => false
  | some n => !(n == 0)

/-- f-string rendering of an optional string: `None` renders as `"None"`. -/
def pyOptStr : Option String → String
  | none => "None"
  | some s => s

/-- f-string rendering of an integral Python float (`5.0` renders `"5.0"`). -/
def priceRepr (n : Int) : String :=
  toString n ++ ".0"

/-- f-string rendering of an optional float: `None` renders as `"None"`. -/
def pyOptPrice : Option Int → String
  | none => "None"
  | some n => priceRepr n

/-- Python `x or ''` for an optional string. -/
def orEmptyStr : Option String → String
  | none => ""
  | some s => s

/-- Python `x or ''` for an optional float (`None` and `0.0` give `''`). -/
def orEmptyPrice : Option Int → String
  | none => ""
  | some n => if n == 0 then "" else priceRepr n

/-- Model of `hashlib.md5(content.encode()).hexdigest()`: a deterministic,
collision-free abstraction of the digest, i.e. the hashed content itself. -/
def md5Model (s : String) : String := s

/-- The content string hashed by `AuctionData.compute_hash`:
`f"{source}:{adresse}:{code_postal}:{mise_a_prix}:{date_vente}"`. -/
def hashContent (a : AuctionData) : String :=
  a.source ++ ":" ++ pyOptStr a.adresse ++ ":" ++ pyOptStr a.code_postal ++ ":"
    ++ pyOptPrice a.mise_a_prix ++ ":" ++ pyOptStr a.date_vente

/-- `AuctionData.compute_hash` (`base_scraper.py` lines 76-80): stores the
digest of the five identity fields into `self.hash`. -/
def computeHash (a : AuctionData) : AuctionData :=
  { a with hash := some (md5Model (hashContent a)) }

/-- The dedup group key of `_deduplicate_and_merge` (`coordinator.py` lines
257-268): hash if truthy, else `url:`, else `addr:`, else `desc:` fallback. -/
def dedupKey (a : AuctionData) : String :=
  if truthyStr a.hash then a.hash.getD ""
  else if truthyStr a.url then "url:" ++ a.url.getD ""
  else if truthyStr a.adresse && truthyStr a.code_postal then
    "addr:" ++ a.adresse.getD "" ++ ":" ++ a.code_postal.getD ""
  else
    "desc:" ++ orEmptyStr a.description ++ ":" ++ orEmptyPrice a.mise_a_prix

/-- One step of building the `groups` dict (`coordinator.py` lines 270-272):
append `a` to the group of `key`, creating the group if absent.  Python dicts
preserve insertion order, so the model is an ordered association list. -/
def addToGroups (gs : List (String × List AuctionData)) (key : String)
    (a : AuctionData) : List (String × List AuctionData) :=
  match gs with
  | [] => [(key, [a])]
  | (k, l) :: rest =>
    if k = key then (k, l ++ [a]) :: rest else (k, l) :: addToGroups rest key a

/-- The `groups` dict of `_deduplicate_and_merge` after the keying loop. -/
def groupAuctions (auctions : List AuctionData) :
    List (String × List AuctionData) :=
  auctions.foldl (fun gs a => addToGroups gs (dedupKey a) a) []

/-- `if not merged.x and auction.x: merged.x = auction.x` — the scalar merge
step of `_merge_auctions`, for any field with truthiness test `tr`. -/
def pyKeep {β : Type} (tr : β → Bool) (m x : β) : β :=
  if !tr m && tr x then x else m

/-- The `description_detaillee` merge step (`coordinator.py` lines 322-324):
a truthy incoming value replaces an untruthy or strictly shorter held value. -/
def pyLongerDesc (m x : Option String) : Option String :=
  if truthyStr x && (!truthyStr m || (x.getD "").length > (m.getD "").length)
  then x else m

/-- `for v in xs: if v not in acc: acc.append(v)` — the `dates_visite` and
`photos` merge loops of `_merge_auctions`. -/
def pyListUnion (acc xs : List String) : List String :=
  xs.foldl (fun acc v => if v ∈ acc then acc else acc ++ [v]) acc

/-- The `documents` merge loop of `_merge_auctions` (lines 361-365): append
each incoming document whose `url` is not already present. -/
def mergeDocs (acc xs : List Document) : List Document :=
  xs.foldl (fun acc d => if d.url ∈ acc.map Document.url then acc else acc ++ [d]) acc

/-- One iteration of the `for auction in auctions[1:]` loop of
`_merge_auctions` (`coordinator.py` lines 296-369).  Each Python statement
reads and writes a single field, so the sequence of in-place updates is the
simultaneous per-field record update below. -/
def mergeOne (merged auction : AuctionData) : AuctionData :=
  { merged with
    adresse := pyKeep truthyStr merged.adresse auction.adresse
    code_postal := pyKeep truthyStr merged.code_postal auction.code_postal
    ville := pyKeep truthyStr merged.ville auction.ville
    department := pyKeep truthyStr merged.department auction.department
    latitude := pyKeep truthyInt merged.latitude auction.latitude
    longitude := pyKeep truthyInt merged.longitude auction.longitude
    surface := pyKeep truthyInt merged.surface auction.surface
    nb_pieces := pyKeep truthyNat merged.nb_pieces auction.nb_pieces
    type_bien := pyKeep truthyStr merged.type_bien auction.type_bien
    description_detaillee :=
      pyLongerDesc merged.description_detaillee auction.description_detaillee
    mise_a_prix := pyKeep truthyInt merged.mise_a_prix auction.mise_a_prix
    prix_marche_estime :=
      pyKeep truthyInt merged.prix_marche_estime auction.prix_marche_estime
    tribunal := pyKeep truthyStr merged.tribunal auction.tribunal
    avocat_nom := pyKeep truthyStr merged.avocat_nom auction.avocat_nom
    avocat_email := pyKeep truthyStr merged.avocat_email auction.avocat_email
    avocat_telephone :=
      pyKeep truthyStr merged.avocat_telephone auction.avocat_telephone
    numero_rg := pyKeep truthyStr merged.numero_rg auction.numero_rg
    date_vente := pyKeep truthyStr merged.date_vente auction.date_vente
    heure_vente := pyKeep truthyStr merged.heure_vente auction.heure_vente
    dates_visite := pyListUnion merged.dates_visite auction.dates_visite
    photos := pyListUnion merged.photos auction.photos
    documents := mergeDocs merged.documents auction.documents
    pv_url := pyKeep truthyStr merged.pv_url auction.pv_url }

/-- Python `sorted(set(xs))` on strings: the strictly increasing enumeration
of the distinct elements. -/
def pySortedSet (xs : List String) : List String :=
  List.insertionSort (· ≤ ·) xs.dedup

/-- The epilogue of `_merge_auctions` (lines 371-380): set primary source and
merge time, cap `photos` at 30, de-duplicate and sort `dates_visite`. -/
def finalizeMerge (now : String) (firstSource : String) (m : AuctionData) :
    AuctionData :=
  { m with
    source := firstSource
    scraped_at := now
    photos := m.photos.take 30
    dates_visite := pySortedSet m.dates_visite }

/-- `_merge_auctions` (`coordinator.py` lines 287-383), with the merge time
`now` passed explicitly.  A single-element group is returned unchanged. -/
def mergeAuctionsAt (now : String) (auctions : List AuctionData) : AuctionData :=
  match auctions with
  | [] => {}
  | [a] => a
  | a :: rest => finalizeMerge now a.source (rest.foldl mergeOne a)

/-- `_deduplicate_and_merge` (`coordinator.py` lines 242-285): group by
`dedupKey`, pass singleton groups through unchanged, merge the rest. -/
def dedupAndMergeAt (now : String) (auctions : List AuctionData) :
    List AuctionData :=
  (groupAuctions auctions).map fun g =>
    match g.2 with
    | [a] => a
    | l => mergeAuctionsAt now l

/-! ## Persistence (`_save_auctions`, `_update_record`, `_insert_record`) -/

/-- A rough model of `json.dumps` on a list of strings. -/
def jsonStrList (l : List String) : String :=
  "[" ++ String.intercalate ", " (l.map (fun s => "\x22" ++ s ++ "\x22")) ++ "]"

/-- A rough model of `json.dumps` on the `documents` list of dicts. -/
def jsonDocList (l : List Document) : String :=
  "[" ++ String.intercalate ", "
    (l.map (fun d => "\x7btype: " ++ d.type ++ ", name: " ++ d.name
      ++ ", url: " ++ d.url ++ "\x7d")) ++ "]"

/-- The dictionary produced by `AuctionData.to_dict` (`base_scraper.py` lines
82-116): scalar fields pass through; `dates_visite` is comma-joined and
`photos`/`documents` are JSON-serialized, each becoming `None` when empty. -/
structure RowData where
  source : String
  source_id : Option String
  url : Option String
  adresse : Option String
  code_postal : Option String
  ville : Option String
  department : Option String
  latitude : Option Int
  longitude : Option Int
  type_bien : Option String
  surface : Option Int
  nb_pieces : Option Nat
  description : Option String
  description_detaillee : Option String
  mise_a_prix : Option Int
  prix_adjudication : Option Int
  prix_marche_estime : Option Int
  prix_m2_marche : Option Int
  tribunal : Option String
  avocat_nom : Option String
  avocat_email : Option String
  avocat_telephone : Option String
  numero_rg : Option String
  date_vente : Option String
  heure_vente : Option String
  dates_visite : Option String
  photos : Option String
  documents : Option String
  pv_url : Option String
  scraped_at : String
  hash : Option String
deriving DecidableEq

/-- `AuctionData.to_dict`. -/
def toDict (a : AuctionData) : RowData where
  source := a.source
  source_id := a.source_id
  url := a.url
  adresse := a.adresse
  code_postal := a.code_postal
  ville := a.ville
  department := a.department
  latitude := a.latitude
  longitude := a.longitude
  type_bien := a.type_bien
  surface := a.surface
  nb_pieces := a.nb_pieces
  description := a.description
  description_detaillee := a.description_detaillee
  mise_a_prix := a.mise_a_prix
  prix_adjudication := a.prix_adjudication
  prix_marche_estime := a.prix_marche_estime
  prix_m2_marche := a.prix_m2_marche
  tribunal := a.tribunal
  avocat_nom := a.avocat_nom
  avocat_email := a.avocat_email
  avocat_telephone := a.avocat_telephone
  numero_rg := a.numero_rg
  date_vente := a.date_vente
  heure_vente := a.heure_vente
  dates_visite :=
    if a.dates_visite.isEmpty then none
    else some (String.intercalate "," a.dates_visite)
  photos := if a.photos.isEmpty then none else some (jsonStrList a.photos)
  documents := if a.documents.isEmpty then none else some (jsonDocList a.documents)
  pv_url := a.pv_url
  scraped_at := a.scraped_at
  hash := a.hash

/-- A stored row of the sqlite `auctions` table, restricted to the columns the
coordinator reads or writes (`_insert_record`'s column list plus the rowid). -/
structure StoredRow where
  id : Nat := 0
  source : String := ""
  source_id : Option String := none
  url : Option String := none
  adresse : Option String := none
  code_postal : Option String := none
  ville : Option String := none
  department : Option String := none
  latitude : Option Int := none
  longitude : Option Int := none
  type_bien : Option String := none
  surface : Option Int := none
  nb_pieces : Option Nat := none
  description : Option String := none
  description_detaillee : Option String := none
  mise_a_prix : Option Int := none
  date_vente : Option String := none
  heure_vente : Option String := none
  tribunal : Option String := none
  avocat_nom : Option String := none
  avocat_email : Option String := none
  avocat_telephone : Option String := none
  numero_rg : Option String := none
  dates_visite : Option String := none
  photos : Option String := none
  documents : Option String := none
  pv_url : Option String := none
  hash : Option String := none
  scraped_at : Option String := none
deriving DecidableEq

/-- `if data.get(field): update_fields.append(...)` — a column is written with
the incoming dict value exactly when that value is truthy. -/
def updWhen {β : Type} (tr : β → Bool) (incoming stored : β) : β :=
  if tr incoming then incoming else stored

/-- `_update_record` (`coordinator.py` lines 421-437): on a matched upsert
write only the truthy incoming dict values among the allow-list
(photos, documents, description_detaillee, pv_url, dates_visite, avocat_nom,
avocat_email, avocat_telephone, latitude, longitude, scraped_at); each `SET`
touches a distinct column, so the statement is the per-field update below. -/
def updateRecord (row : StoredRow) (data : RowData) : StoredRow :=
  { row with
    photos := updWhen truthyStr data.photos row.photos
    documents := updWhen truthyStr data.documents row.documents
    description_detaillee :=
      updWhen truthyStr data.description_detaillee row.description_detaillee
    pv_url := updWhen truthyStr data.pv_url row.pv_url
    dates_visite := updWhen truthyStr data.dates_visite row.dates_visite
    avocat_nom := updWhen truthyStr data.avocat_nom row.avocat_nom
    avocat_email := updWhen truthyStr data.avocat_email row.avocat_email
    avocat_telephone :=
      updWhen truthyStr data.avocat_telephone row.avocat_telephone
    latitude := updWhen truthyInt data.latitude row.latitude
    longitude := updWhen truthyInt data.longitude row.longitude
    scraped_at :=
      if !(data.scraped_at == "") then some data.scraped_at else row.scraped_at }

/-- `_insert_record` (`coordinator.py` lines 439-454): a full new row from the
incoming dict (the table's rowid is supplied by the store). -/
def insertRecord (rowid : Nat) (d : RowData) : StoredRow where
  id := rowid
  source := d.source
  source_id := d.source_id
  url := d.url
  adresse := d.adresse
  code_postal := d.code_postal
  ville := d.ville
  department := d.department
  latitude := d.latitude
  longitude := d.longitude
  type_bien := d.type_bien
  surface := d.surface
  nb_pieces := d.nb_pieces
  description := d.description
  description_detaillee := d.description_detaillee
  mise_a_prix := d.mise_a_prix
  date_vente := d.date_vente
  heure_vente := d.heure_vente
  tribunal := d.tribunal
  avocat_nom := d.avocat_nom
  avocat_email := d.avocat_email
  avocat_telephone := d.avocat_telephone
  numero_rg := d.numero_rg
  dates_visite := d.dates_visite
  photos := d.photos
  documents := d.documents
  pv_url := d.pv_url
  hash := d.hash
  scraped_at := some d.scraped_at

/-- SQL `=` on two nullable text values: `NULL` compares equal to nothing. -/
def sqlEqStr : Option String → Option String → Bool
  | some a, some b => a == b
  | _, _ => false

/-- `SELECT id FROM auctions WHERE hash = ? OR url = ?` + `fetchone()`
(`coordinator.py` lines 396-399): the first stored row, in storage order,
whose `hash` or `url` equals the incoming one (SQL `NULL` never matches). -/
def findExisting (rows : List StoredRow) (a : AuctionData) : Option StoredRow :=
  rows.find? (fun r => sqlEqStr r.hash a.hash || sqlEqStr r.url a.url)

/-- The store: the rows in storage order plus the next fresh rowid. -/
structure Store where
  rows : List StoredRow
  nextId : Nat
deriving DecidableEq

/-- One iteration of the `_save_auctions` loop (lines 393-410): update the
matched row in place, or insert a new row. -/
def saveOne (st : Store) (a : AuctionData) : Store :=
  let d := toDict a
  match findExisting st.rows a with
  | some r =>
    { st with rows := st.rows.map fun r0 =>
        if r0.id = r.id then updateRecord r0 d else r0 }
  | none =>
    { rows := st.rows ++ [insertRecord st.nextId d], nextId := st.nextId + 1 }

/-- `_save_auctions` (`coordinator.py` lines 385-419); in the model no write
throws, so the returned `saved` count is the number of records. -/
def saveAuctions (st : Store) (auctions : List AuctionData) : Store × Nat :=
  (auctions.foldl saveOne st, auctions.length)

/-! ## Geocoding pass (`_geocode_auctions` and `geocoder.geocode_address`) -/

/-- The address text built for a selected row (`coordinator.py` line 474):
`f"{row['adresse']}, {row['code_postal']} {row['ville'] or ''}"`. -/
def rowAddress (r : StoredRow) : String :=
  pyOptStr r.adresse ++ ", " ++ pyOptStr r.code_postal ++ " "
    ++ orEmptyStr r.ville

/-- The per-row body of `_geocode_auctions` (lines 473-485).  `geocode_address`
(`geocoder.py` lines 11-39) returns `Optional[Tuple[float, float]]`, but the
coordinator evaluates `result.get("lat")`, a dict method: on any non-`None`
result this raises `AttributeError` (tuples have no `.get`), which the per-row
`except` swallows.  `Except.error` models the raised exception. -/
def geocodeAttempt (g : String → Option (Int × Int)) (addr : String) :
    Except String (Option (Int × Int)) :=
  match g addr with
  | none => .ok none
  | some _ => .error "AttributeError: tuple object has no attribute get"

/-- The selection query of `_geocode_auctions` (lines 462-468): rows with a
`NULL` coordinate and a non-`NULL` `adresse`, up to `batch_size`. -/
def selectUngeocoded (rows : List StoredRow) (batch : Nat) : List StoredRow :=
  (rows.filter fun r =>
    (r.latitude == none || r.longitude == none) && !(r.adresse == none)).take batch

/-- `_geocode_auctions` (`coordinator.py` lines 456-493), over a geocoding
provider `g`: for each selected row attempt a geocode; an exception leaves the
row untouched, a successful dict lookup would write the coordinates. -/
def geocodeAuctions (rows : List StoredRow) (g : String → Option (Int × Int))
    (batch : Nat) : List StoredRow × Nat :=
  (selectUngeocoded rows batch).foldl
    (fun st r =>
      match geocodeAttempt g (rowAddress r) with
      | .error _ => st
      | .ok none => st
      | .ok (some (la, lo)) =>
        (st.1.map fun r0 =>
          if r0.id = r.id then { r0 with latitude := some la, longitude := some lo }
          else r0,
         st.2 + 1))
    (rows, 0)

/-! ## Per-source run loop (`_run_scraper`) and orchestration (`run_all`) -/

/-- The `SourceAdapter` contract as the coordinator consumes it: a listing
pager and a detail fetcher, each of which may raise (`Except.error`). -/
structure Scraper where
  listing : Nat → Except String (List String)
  detail : String → Except String (Option AuctionData)

/-- The per-source result dict built by `_run_scraper` (lines 228-232). -/
structure SourceResult where
  status : String
  pages_scraped : Nat
  auctions_found : Nat
deriving DecidableEq

/-- The inner `for url in urls` loop of `_run_scraper` (lines 217-224): a
record is hashed and collected; a raising `detail` call is swallowed. -/
def scrapeUrls (s : Scraper) (urls : List String) (acc : List AuctionData) :
    List AuctionData :=
  urls.foldl
    (fun acc u =>
      match s.detail u with
      | .ok (some a) => acc ++ [computeHash a]
      | .ok none => acc
      | .error _ => acc)
    acc

/-- The `for page in range(1, max_pages + 1)` loop of `_run_scraper` (lines
210-224): stop at an empty listing; a raising `listing` call escapes to the
outer handler.  Returns the final `page` value and the collected records. -/
def runPagesAux (s : Scraper) :
    Nat → Nat → List AuctionData → Except String (Nat × List AuctionData)
  | 0, page, acc => .ok (page - 1, acc)
  | r + 1, page, acc =>
    match s.listing page with
    | .error e => .error e
    | .ok [] => .ok (page, acc)
    | .ok urls => runPagesAux s r (page + 1) (scrapeUrls s urls acc)

/-- `_run_scraper` (`coordinator.py` lines 193-240): run the page loop; on
success report `completed` with the page and record counts, and let any
adapter-level exception propagate to `run_all`. -/
def runScraper (s : Scraper) (maxPages : Nat) :
    Except String (SourceResult × List AuctionData) :=
  match runPagesAux s maxPages 1 [] with
  | .error e => .error e
  | .ok (pages, auctions) =>
    .ok ({ status := "completed", pages_scraped := pages,
           auctions_found := auctions.length }, auctions)

/-- The collection loop of `run_all` (lines 140-156): a source that raised is
entered into `results` as `status = "error"` and contributes no records. -/
def collectResults
    (outs : List (String × Except String (SourceResult × List AuctionData))) :
    List (String × String) × List AuctionData :=
  (outs.map fun p =>
     (p.1, match p.2 with
           | .ok (r, _) => r.status
           | .error _ => "error"),
   outs.foldl
     (fun acc p => match p.2 with
       | .ok (_, auctions) => acc ++ auctions
       | .error _ => acc)
     [])

/-- The summary dict returned by `run_all` (lines 169-177), restricted to the
fields the claims mention. -/
structure RunSummary where
  status : String
  sources : List (String × String)
  total_auctions : Nat
  after_dedup : Nat
  saved : Nat
  geocoded : Nat
deriving DecidableEq

/-- `run_all` (`coordinator.py` lines 111-177) after the workers have joined,
over the per-source outcomes `outs`: collect, deduplicate and merge, save,
geocode, and return the summary — whose `status` field is the literal
`"completed"` (line 170). -/
def runAll (now : String) (st : Store) (g : String → Option (Int × Int))
    (outs : List (String × Except String (SourceResult × List AuctionData))) :
    RunSummary × Store :=
  let collected := collectResults outs
  let merged := dedupAndMergeAt now collected.2
  let savedSt := saveAuctions st merged
  let geo := geocodeAuctions savedSt.1.rows g 50
  ({ status := "completed", sources := collected.1,
     total_auctions := collected.2.length, after_dedup := merged.length,
     saved := savedSt.2, geocoded := geo.2 },
   { savedSt.1 with rows := geo.1 })

/-! ## Helper lemmas -/

theorem updWhen_self_of_false {β : Type} (tr : β → Bool) (x s : β)
    (h : tr x = false) : updWhen tr x s = s := by
  simp [updWhen, h]

theorem updWhen_cases {β : Type} (tr : β → Bool) (x s : β) :
    updWhen tr x s = s ∨ (tr x = true ∧ updWhen tr x s = x) := by
  by_cases h : tr x = true
  · exact Or.inr ⟨h, by simp [updWhen, h]⟩
  · exact Or.inl (by simp [updWhen, h])

theorem geocodeAttempt_never_some (g : String → Option (Int × Int))
    (addr : String) :
    geocodeAttempt g addr = .ok none ∨ ∃ e, geocodeAttempt g addr = .error e := by
  unfold geocodeAttempt
  cases g addr
  · exact Or.inl rfl
  · exact Or.inr ⟨_, rfl⟩

/-! ## Claim C6 -/

/-- C6: on a matched upsert, `_update_record` writes only truthy (in
particular non-null) incoming `to_dict` values, and only among the allow-list
photos, documents, description_detaillee, pv_url, dates_visite, avocat_nom,
avocat_email, avocat_telephone, latitude, longitude, scraped_at; every other
stored column is unchanged.  In particular a stored `avocat_email` survives an
upsert whose incoming record lacks one. -/
theorem upsert_non_destructive (row : StoredRow) (a : AuctionData) :
    (truthyStr a.avocat_email = false →
      (updateRecord row (toDict a)).avocat_email = row.avocat_email)
    ∧ (updateRecord row (toDict a)).id = row.id
    ∧ (updateRecord row (toDict a)).source = row.source
    ∧ (updateRecord row (toDict a)).source_id = row.source_id
    ∧ (updateRecord row (toDict a)).url = row.url
    ∧ (updateRecord row (toDict a)).adresse = row.adresse
    ∧ (updateRecord row (toDict a)).code_postal = row.code_postal
    ∧ (updateRecord row (toDict a)).ville = row.ville
    ∧ (updateRecord row (toDict a)).department = row.department
    ∧ (updateRecord row (toDict a)).type_bien = row.type_bien
    ∧ (updateRecord row (toDict a)).surface = row.surface
    ∧ (updateRecord row (toDict a)).nb_pieces = row.nb_pieces
    ∧ (updateRecord row (toDict a)).description = row.description
    ∧ (updateRecord row (toDict a)).mise_a_prix = row.mise_a_prix
    ∧ (updateRecord row (toDict a)).date_vente = row.date_vente
    ∧ (updateRecord row (toDict a)).heure_vente = row.heure_vente
    ∧ (updateRecord row (toDict a)).tribunal = row.tribunal
    ∧ (updateRecord row (toDict a)).numero_rg = row.numero_rg
    ∧ (updateRecord row (toDict a)).hash = row.hash
    ∧ ((updateRecord row (toDict a)).photos = row.photos
        ∨ (truthyStr (toDict a).photos = true
           ∧ (updateRecord row (toDict a)).photos = (toDict a).photos))
    ∧ ((updateRecord row (toDict a)).documents = row.documents
        ∨ (truthyStr (toDict a).documents = true
           ∧ (updateRecord row (toDict a)).documents = (toDict a).documents))
    ∧ ((updateRecord row (toDict a)).description_detaillee
          = row.description_detaillee
        ∨ (truthyStr (toDict a).description_detaillee = true
           ∧ (updateRecord row (toDict a)).description_detaillee
              = (toDict a).description_detaillee))
    ∧ ((updateRecord row (toDict a)).pv_url = row.pv_url
        ∨ (truthyStr (toDict a).pv_url = true
           ∧ (updateRecord row (toDict a)).pv_url = (toDict a).pv_url))
    ∧ ((updateRecord row (toDict a)).dates_visite = row.dates_visite
        ∨ (truthyStr (toDict a).dates_visite = true
           ∧ (updateRecord row (toDict a)).dates_visite = (toDict a).dates_visite))
    ∧ ((updateRecord row (toDict a)).avocat_nom = row.avocat_nom
        ∨ (truthyStr (toDict a).avocat_nom = true
           ∧ (updateRecord row (toDict a)).avocat_nom = (toDict a).avocat_nom))
    ∧ ((updateRecord row (toDict a)).avocat_email = row.avocat_email
        ∨ (truthyStr (toDict a).avocat_email = true
           ∧ (updateRecord row (toDict a)).avocat_email = (toDict a).avocat_email))
    ∧ ((updateRecord row (toDict a)).avocat_telephone = row.avocat_telephone
        ∨ (truthyStr (toDict a).avocat_telephone = true
           ∧ (updateRecord row (toDict a)).avocat_telephone
              = (toDict a).avocat_telephone))
    ∧ ((updateRecord row (toDict a)).latitude = row.latitude
        ∨ (truthyInt (toDict a).latitude = true
           ∧ (updateRecord row (toDict a)).latitude = (toDict a).latitude))
    ∧ ((updateRecord row (toDict a)).longitude = row.longitude
        ∨ (truthyInt (toDict a).longitude = true
           ∧ (updateRecord row (toDict a)).longitude = (toDict a).longitude))
    ∧ ((updateRecord row (toDict a)).scraped_at = row.scraped_at
        ∨ ((toDict a).scraped_at ≠ ""
           ∧ (updateRecord row (toDict a)).scraped_at
              = some (toDict a).scraped_at)) := by
  refine ⟨?_, rfl, rfl, rfl, rfl, rfl, rfl, rfl, rfl, rfl, rfl, rfl, rfl, rfl,
    rfl, rfl, rfl, rfl, rfl,
    updWhen_cases _ _ _, updWhen_cases _ _ _, updWhen_cases _ _ _,
    updWhen_cases _ _ _, updWhen_cases _ _ _, updWhen_cases _ _ _,
    updWhen_cases _ _ _, updWhen_cases _ _ _, updWhen_cases _ _ _,
    updWhen_cases _ _ _, ?_⟩
  · intro h
    exact updWhen_self_of_false _ _ _ h
  · by_cases h : a.scraped_at = ""
    · exact Or.inl (by simp [updateRecord, toDict, h])
    · exact Or.inr ⟨h, by simp [updateRecord, toDict, h]⟩

/-- C6 witness: a stored `avocat_email = "a@x.fr"` survives upserting a record
whose `avocat_email` is `None`. -/
theorem upsert_non_destructive_witness :
    (updateRecord { avocat_email := some "a@x.fr", id := 7 }
        (toDict { source := "siteB", adresse := some "12 Rue X" })).avocat_email
      = some "a@x.fr" := by
  have h := (upsert_non_destructive { avocat_email := some "a@x.fr", id := 7 }
    { source := "siteB", adresse := some "12 Rue X" }).1 (by decide)
  simpa using h

/-! ## Claim C10 -/

/-- C10: the geocoding pass never updates any row and always reports zero
geocoded records, for every store and every geocoding provider: the
coordinator calls `result.get("lat")` on the `(lat, lon)` tuple returned by
`geocode_address`, which raises `AttributeError` on every non-`None` result,
and the per-row handler swallows it. -/
theorem geocode_pass_never_updates (rows : List StoredRow)
    (g : String → Option (Int × Int)) (batch : Nat) :
    geocodeAuctions rows g batch = (rows, 0) := by
  unfold geocodeAuctions
  generalize selectUngeocoded rows batch = l
  induction l with
  | nil => rfl
  | cons r t ih =>
    rw [List.foldl_cons]
    rcases geocodeAttempt_never_some g (rowAddress r) with h | ⟨e, h⟩ <;>
      rw [h] <;> exact ih

/-! ## Claim C8 -/

/-- The per-source result a worker reports after one empty listing page. -/
def emptyRunResult : SourceResult :=
  { status := "completed", pages_scraped := 1, auctions_found := 0 }

/-- A run in which the first source raised and the second completed. -/
def mixedOutcomes :
    List (String × Except String (SourceResult × List AuctionData)) :=
  [("encheres_publiques", Except.error "boom"),
   ("licitor", Except.ok (emptyRunResult, []))]

/-- C8 counterexample: in a run where one source raised and another completed,
the summary's overall status is still the literal `"completed"`, so the
claimed equivalence `overall = Completed ↔ every source completed` is false
(`run_all` has no `PartiallyFailed` outcome at all). -/
theorem run_status_counterexample :
    ((runAll "n" ⟨[], 0⟩ (fun _ => none) mixedOutcomes).1.status = "completed")
    ∧ ("encheres_publiques", "error") ∈
        (runAll "n" ⟨[], 0⟩ (fun _ => none) mixedOutcomes).1.sources
    ∧ ¬(((runAll "n" ⟨[], 0⟩ (fun _ => none) mixedOutcomes).1.status
          = "completed")
        ↔ (∀ p ∈ (runAll "n" ⟨[], 0⟩ (fun _ => none) mixedOutcomes).1.sources,
            p.2 = "completed")) := by
  refine ⟨rfl, by decide, ?_⟩
  intro h
  have := h.mp rfl ("encheres_publiques", "error") (by decide)
  simp at this

/-- C8 amended: the summary's overall status is always the literal
`"completed"`, whatever the per-source outcomes; per-source failure is visible
only in the per-source map, where a source is `"error"` exactly when its
worker raised, and a worker that returns reports `"completed"`. -/
theorem run_status_always_completed (now : String) (st : Store)
    (g : String → Option (Int × Int)) (scrapers : List (String × Scraper))
    (maxPages : Nat) :
    (runAll now st g
        (scrapers.map fun p => (p.1, runScraper p.2 maxPages))).1.status
      = "completed"
    ∧ (runAll now st g
        (scrapers.map fun p => (p.1, runScraper p.2 maxPages))).1.sources
      = scrapers.map (fun p =>
          (p.1, match runScraper p.2 maxPages with
                | .ok (r, _) => r.status
                | .error _ => "error"))
    ∧ ∀ p ∈ scrapers, ∀ r auctions,
        runScraper p.2 maxPages = .ok (r, auctions) → r.status = "completed" := by
  refine ⟨rfl, ?_, ?_⟩
  · show (collectResults _).1 = _
    simp only [collectResults, List.map_map]
    rfl
  · intro p _ r auctions h
    unfold runScraper at h
    cases hp : runPagesAux p.2 maxPages 1 [] with
    | error e => rw [hp] at h; cases h
    | ok v =>
      obtain ⟨pg, col⟩ := v
      rw [hp] at h
      simp only [Except.ok.injEq, Prod.mk.injEq] at h
      rw [← h.1]

/-- C8 witness for the amended statement, at one concrete scraper whose first
listing page is already empty. -/
theorem run_status_always_completed_witness :
    (runAll "n" ⟨[], 0⟩ (fun _ => none)
        ([("a", ⟨fun _ => .ok [], fun _ => .ok none⟩)].map
          fun p => (p.1, runScraper p.2 3))).1.status = "completed"
    ∧ emptyRunResult.status = "completed" := by
  have h := run_status_always_completed "n" ⟨[], 0⟩ (fun _ => none)
    [("a", ⟨fun _ => .ok [], fun _ => .ok none⟩)] 3
  exact ⟨h.1, h.2.2 ("a", ⟨fun _ => .ok [], fun _ => .ok none⟩) (by simp)
    emptyRunResult [] (by rfl)⟩

/-! ## Claim C7 -/

theorem sqlEqStr_none_right (x : Option String) : sqlEqStr x none = false := by
  cases x <;> rfl

theorem find?_first {α : Type} (p : α → Bool) :
    ∀ (l : List α) (a : α), l.find? p = some a →
      ∃ pre post, l = pre ++ a :: post ∧ ∀ x ∈ pre, p x = false := by
  intro l
  induction l with
  | nil => intro a h; cases h
  | cons x t ih =>
    intro a h
    cases hx : p x with
    | true =>
      rw [List.find?_cons_of_pos _ hx] at h
      obtain rfl : x = a := by injection h
      exact ⟨[], t, rfl, by simp⟩
    | false =>
      rw [List.find?_cons_of_neg _ (by simp [hx])] at h
      obtain ⟨pre, post, rfl, hpre⟩ := ih a h
      refine ⟨x :: pre, post, rfl, ?_⟩
      intro y hy
      rcases List.mem_cons.mp hy with rfl | hy
      · exact hx
      · exact hpre y hy

/-- A stored row matching the incoming record only by `url` (lower rowid). -/
def rowUrlMatch : StoredRow :=
  { id := 1, hash := some "hOther", url := some "u" }

/-- A stored row matching the incoming record only by `hash` (higher rowid). -/
def rowHashMatch : StoredRow :=
  { id := 2, hash := some "h", url := some "v" }

/-- An incoming record whose `hash` matches one stored row and whose `url`
matches a different stored row. -/
def incomingBoth : AuctionData :=
  { source := "s", hash := some "h", url := some "u", scraped_at := "T" }

/-- C7 counterexample: when the incoming record's hash matches row 2 and its
url matches row 1, `fetchone` on `WHERE hash = ? OR url = ?` returns the
url-matched row (first in storage order), and `_save_auctions` updates that
row — the hash match does not take precedence. -/
theorem match_precedence_counterexample :
    sqlEqStr rowHashMatch.hash incomingBoth.hash = true
    ∧ sqlEqStr rowUrlMatch.hash incomingBoth.hash = false
    ∧ sqlEqStr rowUrlMatch.url incomingBoth.url = true
    ∧ findExisting [rowUrlMatch, rowHashMatch] incomingBoth = some rowUrlMatch
    ∧ (saveOne ⟨[rowUrlMatch, rowHashMatch], 3⟩ incomingBoth).rows
        = [updateRecord rowUrlMatch (toDict incomingBoth), rowHashMatch]
    ∧ updateRecord rowUrlMatch (toDict incomingBoth) ≠ rowUrlMatch := by
  refine ⟨rfl, rfl, rfl, by decide, by decide, by decide⟩

/-- C7 amended: the store matches by `identityHash OR url` with SQL `NULL`
semantics, and when several stored rows match (for either reason) the one
updated is the first matching row in storage order — `identityHash` gets no
precedence over `url`.  An unmatched record is inserted as a fresh row. -/
theorem match_first_row_wins (rows : List StoredRow) (a : AuctionData) :
    (findExisting rows a = none ↔ ∀ r ∈ rows,
        sqlEqStr r.hash a.hash = false ∧ sqlEqStr r.url a.url = false)
    ∧ (∀ r, findExisting rows a = some r →
        (sqlEqStr r.hash a.hash = true ∨ sqlEqStr r.url a.url = true)
        ∧ ∃ pre post, rows = pre ++ r :: post
            ∧ ∀ r' ∈ pre, sqlEqStr r'.hash a.hash = false
                ∧ sqlEqStr r'.url a.url = false)
    ∧ (a.hash = none → ∀ r ∈ rows, sqlEqStr r.hash a.hash = false)
    ∧ (∀ r nid, findExisting rows a = some r →
        saveOne ⟨rows, nid⟩ a
          = ⟨rows.map fun r0 =>
              if r0.id = r.id then updateRecord r0 (toDict a) else r0, nid⟩)
    ∧ (∀ nid, findExisting rows a = none →
        saveOne ⟨rows, nid⟩ a
          = ⟨rows ++ [insertRecord nid (toDict a)], nid + 1⟩) := by
  refine ⟨?_, ?_, ?_, ?_, ?_⟩
  · rw [findExisting, List.find?_eq_none]
    constructor
    · intro h r hr
      have := h r hr
      constructor
      · cases hh : sqlEqStr r.hash a.hash
        · rfl
        · exact absurd (by simp [hh]) this
      · cases hu : sqlEqStr r.url a.url
        · rfl
        · exact absurd (by simp [hu]) this
    · intro h r hr
      obtain ⟨h1, h2⟩ := h r hr
      simp [h1, h2]
  · intro r hr
    constructor
    · have := List.find?_some hr
      rcases Bool.or_eq_true_iff.mp this with h | h
      · exact Or.inl h
      · exact Or.inr h
    · obtain ⟨pre, post, rfl, hpre⟩ := find?_first _ _ _ hr
      refine ⟨pre, post, rfl, ?_⟩
      intro r' hr'
      have := hpre r' hr'
      constructor
      · cases hh : sqlEqStr r'.hash a.hash
        · rfl
        · rw [hh] at this; simp at this
      · cases hu : sqlEqStr r'.url a.url
        · rfl
        · rw [hu] at this; simp at this
  · intro h r _
    rw [h]
    exact sqlEqStr_none_right r.hash
  · intro r nid h
    simp [saveOne, h]
  · intro nid h
    simp [saveOne, h]

/-- C7 witness for the amended statement, at the two-row store where the
first stored row matches only by url. -/
theorem match_first_row_wins_witness :
    (sqlEqStr rowUrlMatch.hash incomingBoth.hash = true
      ∨ sqlEqStr rowUrlMatch.url incomingBoth.url = true)
    ∧ saveOne ⟨[rowUrlMatch, rowHashMatch], 3⟩ incomingBoth
        = ⟨[rowUrlMatch, rowHashMatch].map fun r0 =>
            if r0.id = rowUrlMatch.id then updateRecord r0 (toDict incomingBoth)
            else r0, 3⟩ := by
  have h := match_first_row_wins [rowUrlMatch, rowHashMatch] incomingBoth
  exact ⟨(h.2.1 rowUrlMatch (by decide)).1,
    h.2.2.2.1 rowUrlMatch 3 (by decide)⟩

/-! ## Claim C9 -/

theorem scrapeUrls_all_error (s : Scraper)
    (h : ∀ u, ∃ e, s.detail u = .error e) :
    ∀ (urls : List String) (acc : List AuctionData),
      scrapeUrls s urls acc = acc := by
  intro urls
  induction urls with
  | nil => intro acc; rfl
  | cons u t ih =>
    intro acc
    obtain ⟨e, he⟩ := h u
    show List.foldl _ _ (u :: t) = acc
    rw [List.foldl_cons, he]
    exact ih acc

theorem runPages_all_error (s : Scraper)
    (hdetail : ∀ u, ∃ e, s.detail u = .error e)
    (hlist : ∀ p, ∃ urls, s.listing p = .ok urls) :
    ∀ (rem page : Nat) (acc : List AuctionData),
      ∃ pg, runPagesAux s rem page acc = .ok (pg, acc) := by
  intro rem
  induction rem with
  | zero => intro page acc; exact ⟨page - 1, rfl⟩
  | succ r ih =>
    intro page acc
    obtain ⟨urls, hu⟩ := hlist page
    cases urls with
    | nil => exact ⟨page, by rw [runPagesAux, hu]⟩
    | cons u us =>
      obtain ⟨pg, hpg⟩ := ih (page + 1) acc
      refine ⟨pg, ?_⟩
      rw [runPagesAux, hu]
      show runPagesAux s r (page + 1) (scrapeUrls s (u :: us) acc)
        = Except.ok (pg, acc)
      rw [scrapeUrls_all_error s hdetail (u :: us) acc]
      exact hpg

theorem collectAuctions_acc (outs : List
    (String × Except String (SourceResult × List AuctionData))) :
    ∀ acc, outs.foldl
        (fun acc p => match p.2 with
          | .ok (_, auctions) => acc ++ auctions
          | .error _ => acc) acc
      = acc ++ outs.foldl
          (fun acc p => match p.2 with
            | .ok (_, auctions) => acc ++ auctions
            | .error _ => acc) [] := by
  induction outs with
  | nil => intro acc; simp
  | cons p t ih =>
    intro acc
    obtain ⟨nm, o⟩ := p
    rw [List.foldl_cons, List.foldl_cons]
    cases o with
    | error e => exact ih acc
    | ok v =>
      obtain ⟨r, as⟩ := v
      show List.foldl _ (acc ++ as) t = acc ++ List.foldl _ ([] ++ as) t
      rw [ih (acc ++ as), ih ([] ++ as)]
      simp [List.append_assoc]

theorem collect2_append (l1 l2 : List
    (String × Except String (SourceResult × List AuctionData))) :
    (collectResults (l1 ++ l2)).2
      = (collectResults l1).2 ++ (collectResults l2).2 := by
  show List.foldl _ [] _ = _
  rw [List.foldl_append]
  rw [collectAuctions_acc l2]
  rfl

theorem collect2_cons_ok (name : String) (res : SourceResult)
    (as : List AuctionData)
    (rest : List (String × Except String (SourceResult × List AuctionData))) :
    (collectResults ((name, Except.ok (res, as)) :: rest)).2
      = as ++ (collectResults rest).2 := by
  show List.foldl _ [] _ = _
  rw [List.foldl_cons]
  show List.foldl _ ([] ++ as) rest = _
  rw [collectAuctions_acc rest]
  simp only [List.nil_append]
  rfl

/-- C9 amended: a source whose `detail()` raises on every call has those
per-URL exceptions swallowed by `_run_scraper`'s inner handler: the source
still finishes with `status = "completed"` and zero collected records (it is
NOT marked `error` — only an adapter-level exception outside the per-URL loop
would be).  Other sources are unaffected: their per-source statuses are
exactly what their own outcomes report, the overall status is `"completed"`,
and the run's collected records are exactly the other sources' records. -/
theorem detail_failures_swallowed_isolated (s : Scraper) (maxPages : Nat)
    (hdetail : ∀ u, ∃ e, s.detail u = .error e)
    (hlist : ∀ p, ∃ urls, s.listing p = .ok urls) :
    (∃ pages, runScraper s maxPages
        = .ok ({ status := "completed", pages_scraped := pages,
                 auctions_found := 0 }, []))
    ∧ ∀ now st g pre post name,
        ((runAll now st g
            (pre ++ (name, runScraper s maxPages) :: post)).1.sources
          = (collectResults pre).1 ++ (name, "completed")
              :: (collectResults post).1)
        ∧ ((runAll now st g
            (pre ++ (name, runScraper s maxPages) :: post)).1.status
          = "completed")
        ∧ ((collectResults (pre ++ (name, runScraper s maxPages) :: post)).2
          = (collectResults pre).2 ++ (collectResults post).2) := by
  obtain ⟨pg, hpg⟩ := runPages_all_error s hdetail hlist maxPages 1 []
  have hrun : runScraper s maxPages
      = .ok ({ status := "completed", pages_scraped := pg,
               auctions_found := 0 }, []) := by
    rw [runScraper, hpg]
    rfl
  refine ⟨⟨pg, hrun⟩, ?_⟩
  intro now st g pre post name
  refine ⟨?_, rfl, ?_⟩
  · show List.map _ _ = _
    rw [List.map_append, List.map_cons, hrun]
    rfl
  · rw [hrun, collect2_append, collect2_cons_ok]
    simp

/-- A scraper whose `detail()` raises on every call (two urls on page 1). -/
def throwingScraper : Scraper :=
  { listing := fun p => .ok (if p = 1 then ["u1", "u2"] else []),
    detail := fun _ => .error "boom" }

/-- A healthy record from a second source. -/
def goodAuction : AuctionData :=
  { source := "licitor", url := some "https://g/1", adresse := some "1 Rue Y",
    code_postal := some "75001", mise_a_prix := some 1000,
    date_vente := some "2025-03-01" }

/-- A scraper returning `goodAuction` for the single url of page 1. -/
def goodScraper : Scraper :=
  { listing := fun p => .ok (if p = 1 then ["g1"] else []),
    detail := fun _ => .ok (some goodAuction) }

/-- The result `_run_scraper` reports for `throwingScraper`. -/
def throwRunResult : SourceResult :=
  { status := "completed", pages_scraped := 2, auctions_found := 0 }

/-- C9 counterexample: with one source whose `detail()` always raises and one
healthy source, the other source completes and its record is persisted — but
the summary marks the throwing source `"completed"`, not `"error"`: the
per-URL exceptions are swallowed inside `_run_scraper`'s inner loop. -/
theorem detail_throw_marked_completed :
    runScraper throwingScraper 20 = .ok (throwRunResult, [])
    ∧ (runAll "n" ⟨[], 0⟩ (fun _ => none)
        [("bad", runScraper throwingScraper 20),
         ("good", runScraper goodScraper 20)]).1.sources
      = [("bad", "completed"), ("good", "completed")]
    ∧ ("bad", "error") ∉ (runAll "n" ⟨[], 0⟩ (fun _ => none)
        [("bad", runScraper throwingScraper 20),
         ("good", runScraper goodScraper 20)]).1.sources
    ∧ (runAll "n" ⟨[], 0⟩ (fun _ => none)
        [("bad", runScraper throwingScraper 20),
         ("good", runScraper goodScraper 20)]).2.rows.map StoredRow.url
      = [some "https://g/1"] := by
  refine ⟨by rfl, by rfl, by decide, by rfl⟩

/-- C9 witness for the amended statement, at `throwingScraper` in a run whose
other source is `goodScraper`. -/
theorem detail_failures_swallowed_isolated_witness :
    (runAll "n" ⟨[], 0⟩ (fun _ => none)
        ([] ++ ("bad", runScraper throwingScraper 20)
          :: [("good", runScraper goodScraper 20)])).1.sources
      = (collectResults []).1 ++ ("bad", "completed")
          :: (collectResults [("good", runScraper goodScraper 20)]).1 := by
  have h := detail_failures_swallowed_isolated throwingScraper 20
    (fun u => ⟨"boom", rfl⟩)
    (fun p => ⟨if p = 1 then ["u1", "u2"] else [], rfl⟩)
  exact (h.2 "n" ⟨[], 0⟩ (fun _ => none) []
    [("good", runScraper goodScraper 20)] "bad").1

/-! ## Merge-fold machinery (claims C2-C5) -/

theorem foldl_mergeOne_proj {β : Type} (g : AuctionData → β) (step : β → β → β)
    (hg : ∀ m a, g (mergeOne m a) = step (g m) (g a)) :
    ∀ (l : List AuctionData) (i : AuctionData),
      g (l.foldl mergeOne i) = (l.map g).foldl step (g i) := by
  intro l
  induction l with
  | nil => intro i; rfl
  | cons a t ih =>
    intro i
    rw [List.foldl_cons, List.map_cons, List.foldl_cons, ih, hg]

theorem foldl_pyKeep_eq_find {β : Type} (tr : β → Bool) :
    ∀ (l : List β) (i : β),
      l.foldl (pyKeep tr) i = if tr i then i else (l.find? tr).getD i := by
  intro l
  induction l with
  | nil =>
    intro i
    cases h : tr i <;> simp [h]
  | cons x t ih =>
    intro i
    rw [List.foldl_cons]
    cases hi : tr i with
    | true =>
      have hx : pyKeep tr i x = i := by simp [pyKeep, hi]
      rw [hx, ih]
      simp [hi]
    | false =>
      cases hx : tr x with
      | true =>
        have hk : pyKeep tr i x = x := by simp [pyKeep, hi, hx]
        rw [hk, ih]
        simp [hi, hx, List.find?_cons_of_pos _ hx]
      | false =>
        have hk : pyKeep tr i x = i := by simp [pyKeep, hi, hx]
        have hfind : List.find? tr (x :: t) = List.find? tr t :=
          List.find?_cons_of_neg _ (by simp [hx])
        rw [hk, ih]
        simp [hi, hfind]

theorem findD_cons {β : Type} (tr : β → Bool) (x : β) (l : List β) :
    ((x :: l).find? tr).getD x = if tr x then x else (l.find? tr).getD x := by
  cases h : tr x with
  | true => rw [List.find?_cons_of_pos _ h]; simp
  | false => rw [List.find?_cons_of_neg _ (by simp [h])]; simp [h]

/-- Projection of the merge of a nonempty group onto any scalar field handled
by the `first truthy wins` rule. -/
theorem merge_proj_scalar {β : Type} (g : AuctionData → β) (tr : β → Bool)
    (hm : ∀ m a, g (mergeOne m a) = pyKeep tr (g m) (g a))
    (hfin : ∀ now src m, g (finalizeMerge now src m) = g m)
    (now : String) (h : AuctionData) (t : List AuctionData) :
    g (mergeAuctionsAt now (h :: t)) = (((h :: t).map g).find? tr).getD (g h) := by
  cases t with
  | nil =>
    show g h = _
    rw [List.map_cons, List.map_nil, findD_cons]
    cases hh : tr (g h) <;> simp
  | cons b bs =>
    show g (finalizeMerge now h.source ((b :: bs).foldl mergeOne h)) = _
    rw [hfin, foldl_mergeOne_proj g (pyKeep tr) hm, foldl_pyKeep_eq_find]
    simp only [List.map_cons, findD_cons]

theorem find?_append_of_some {β : Type} (p : β → Bool) :
    ∀ (l1 l2 : List β) (v : β), l1.find? p = some v →
      (l1 ++ l2).find? p = some v := by
  intro l1
  induction l1 with
  | nil => intro l2 v h; cases h
  | cons a t ih =>
    intro l2 v h
    cases ha : p a with
    | true =>
      rw [List.find?_cons_of_pos _ ha] at h
      rw [List.cons_append, List.find?_cons_of_pos _ ha]
      exact h
    | false =>
      rw [List.find?_cons_of_neg _ (by simp [ha])] at h
      rw [List.cons_append, List.find?_cons_of_neg _ (by simp [ha])]
      exact ih l2 v h

theorem find_stable {β : Type} (tr : β → Bool) (x₀ : β) (l : List β) (y : β)
    (h : tr (((x₀ :: l).find? tr).getD x₀) = true) :
    (((x₀ :: l) ++ [y]).find? tr).getD x₀ = ((x₀ :: l).find? tr).getD x₀ := by
  cases hf : (x₀ :: l).find? tr with
  | some v =>
    have happ : ((x₀ :: l) ++ [y]).find? tr = some v :=
      find?_append_of_some tr (x₀ :: l) [y] v hf
    rw [happ]
  | none =>
    exfalso
    have hx := List.find?_eq_none.mp hf x₀ (List.mem_cons_self x₀ l)
    rw [hf] at h
    exact hx (by simpa using h)

/-- The truthy `description_detaillee` values of a group, in fold order. -/
def truthyVals (l : List (Option String)) : List String :=
  l.filterMap fun o =>
    match o with
    | some s => if s = "" then none else some s
    | none => none

/-- The claimed tie-break: keep the strictly longer value, earlier wins ties. -/
def pickLonger (a y : String) : String :=
  if y.length > a.length then y else a

theorem truthyVals_cons_falsy (o : Option String) (l : List (Option String))
    (h : truthyStr o = false) : truthyVals (o :: l) = truthyVals l := by
  cases o with
  | none => rfl
  | some s =>
    have hs : s = "" := by simpa [truthyStr] using h
    simp [truthyVals, hs]

theorem truthyVals_cons_truthy (s : String) (l : List (Option String))
    (h : s ≠ "") : truthyVals (some s :: l) = s :: truthyVals l := by
  simp [truthyVals, h]

theorem dd_fold_truthy :
    ∀ (l : List (Option String)) (s : String), s ≠ "" →
      l.foldl pyLongerDesc (some s)
        = some ((truthyVals l).foldl pickLonger s) := by
  intro l
  induction l with
  | nil => intro s _; simp [truthyVals]
  | cons x t ih =>
    intro s hs
    rw [List.foldl_cons]
    cases x with
    | none =>
      have : pyLongerDesc (some s) none = some s := rfl
      rw [this, truthyVals_cons_falsy none _ rfl, ih s hs]
    | some y =>
      by_cases hy : y = ""
      · have : pyLongerDesc (some s) (some y) = some s := by
          simp [pyLongerDesc, truthyStr, hy]
        rw [this, truthyVals_cons_falsy _ _ (by simp [truthyStr, hy]), ih s hs]
      · rw [truthyVals_cons_truthy _ _ hy, List.foldl_cons]
        have hty : truthyStr (some y) = true := by simp [truthyStr, hy]
        have hts : truthyStr (some s) = true := by simp [truthyStr, hs]
        by_cases hlen : y.length > s.length
        · have h1 : pyLongerDesc (some s) (some y) = some y := by
            simp [pyLongerDesc, hty, hts, hlen]
          have h2 : pickLonger s y = y := by simp [pickLonger, hlen]
          rw [h1, h2, ih y hy]
        · have h1 : pyLongerDesc (some s) (some y) = some s := by
            simp [pyLongerDesc, hty, hts, hlen]
          have h2 : pickLonger s y = s := by simp [pickLonger, hlen]
          rw [h1, h2, ih s hs]

theorem dd_fold_falsy :
    ∀ (l : List (Option String)) (i : Option String), truthyStr i = false →
      (truthyVals l = [] → l.foldl pyLongerDesc i = i)
      ∧ (∀ v vs, truthyVals l = v :: vs →
          l.foldl pyLongerDesc i = some (vs.foldl pickLonger v)) := by
  intro l
  induction l with
  | nil =>
    intro i _
    exact ⟨fun _ => rfl, fun v vs h => by cases h⟩
  | cons x t ih =>
    intro i hi
    have hkeep : ∀ (hx : truthyStr x = false), pyLongerDesc i x = i := by
      intro hx
      simp [pyLongerDesc, hx]
    cases x with
    | none =>
      obtain ⟨ih1, ih2⟩ := ih i hi
      rw [List.foldl_cons, hkeep rfl]
      constructor
      · intro h
        rw [truthyVals_cons_falsy none _ rfl] at h
        exact ih1 h
      · intro v vs h
        rw [truthyVals_cons_falsy none _ rfl] at h
        exact ih2 v vs h
    | some y =>
      by_cases hy : y = ""
      · obtain ⟨ih1, ih2⟩ := ih i hi
        have hfal : truthyStr (some y) = false := by simp [truthyStr, hy]
        rw [List.foldl_cons, hkeep hfal]
        constructor
        · intro h
          rw [truthyVals_cons_falsy _ _ hfal] at h
          exact ih1 h
        · intro v vs h
          rw [truthyVals_cons_falsy _ _ hfal] at h
          exact ih2 v vs h
      · have hrepl : pyLongerDesc i (some y) = some y := by
          have h1 : truthyStr (some y) = true := by simp [truthyStr, hy]
          simp [pyLongerDesc, h1, hi]
        rw [List.foldl_cons, hrepl]
        constructor
        · intro h
          rw [truthyVals_cons_truthy _ _ hy] at h
          cases h
        · intro v vs h
          rw [truthyVals_cons_truthy _ _ hy] at h
          injection h with h1 h2
          subst h1
          subst h2
          exact dd_fold_truthy t y hy

/-- Projection of the merge of a nonempty group onto `description_detaillee`. -/
theorem merge_dd_fold (now : String) (h : AuctionData) (t : List AuctionData) :
    (mergeAuctionsAt now (h :: t)).description_detaillee
      = (t.map (·.description_detaillee)).foldl pyLongerDesc
          h.description_detaillee := by
  cases t with
  | nil => rfl
  | cons b bs =>
    show (finalizeMerge now h.source
        ((b :: bs).foldl mergeOne h)).description_detaillee = _
    exact foldl_mergeOne_proj (·.description_detaillee) pyLongerDesc
      (fun m a => rfl) (b :: bs) h

theorem merge_dd_spec (now : String) (h : AuctionData) (t : List AuctionData) :
    (truthyVals ((h :: t).map (·.description_detaillee)) = [] →
      (mergeAuctionsAt now (h :: t)).description_detaillee
        = h.description_detaillee)
    ∧ (∀ v vs, truthyVals ((h :: t).map (·.description_detaillee)) = v :: vs →
        (mergeAuctionsAt now (h :: t)).description_detaillee
          = some (vs.foldl pickLonger v)) := by
  have hfold := merge_dd_fold now h t
  rw [List.map_cons]
  cases hdd : truthyStr h.description_detaillee with
  | false =>
    obtain ⟨h1, h2⟩ :=
      dd_fold_falsy (t.map (·.description_detaillee)) h.description_detaillee hdd
    rw [truthyVals_cons_falsy _ _ hdd]
    constructor
    · intro he
      rw [hfold]
      exact h1 he
    · intro v vs he
      rw [hfold]
      exact h2 v vs he
  | true =>
    cases hd : h.description_detaillee with
    | none => rw [hd] at hdd; simp [truthyStr] at hdd
    | some s =>
      have hs : s ≠ "" := by
        rw [hd] at hdd
        simpa [truthyStr] using hdd
      rw [truthyVals_cons_truthy _ _ hs]
      constructor
      · intro he
        cases he
      · intro v vs he
        injection he with e1 e2
        subst e1
        subst e2
        rw [hfold, hd]
        exact dd_fold_truthy (t.map (·.description_detaillee)) s hs

theorem merge_no_overwrite {β : Type} (g : AuctionData → β) (tr : β → Bool)
    (hm : ∀ m a, g (mergeOne m a) = pyKeep tr (g m) (g a))
    (hfin : ∀ now src m, g (finalizeMerge now src m) = g m)
    (now : String) (h : AuctionData) (t : List AuctionData)
    (extra : AuctionData)
    (htr : tr (g (mergeAuctionsAt now (h :: t))) = true) :
    g (mergeAuctionsAt now ((h :: t) ++ [extra]))
      = g (mergeAuctionsAt now (h :: t)) := by
  have e1 := merge_proj_scalar g tr hm hfin now h t
  have e2 := merge_proj_scalar g tr hm hfin now h (t ++ [extra])
  rw [e1] at htr
  rw [List.cons_append, e2, e1]
  rw [List.map_cons] at htr
  rw [List.map_cons, List.map_cons, List.map_append, ← List.cons_append]
  exact find_stable tr (g h) (t.map g) (g extra) htr

/-- C2: for every merge group folded left-to-right, each scalar field of the
merged record (address, postalCode, city, department, surface, rooms,
propertyType, the merged prices, court, lawyer name/email/phone, caseNumber,
saleDate, saleTime, minutesUrl) is the first truthy (non-empty) value among
the group's records in fold order (and keeps the head's value when no record
has one); appending a later record never changes an already-populated scalar
(shown for address and startingPrice); `description_detaillee` is the longest
truthy value in fold order, the earlier record winning ties (`pickLonger`
keeps the incumbent unless the newcomer is strictly longer). -/
theorem merge_scalar_first_nonempty (now : String) (h : AuctionData)
    (t : List AuctionData) :
    ((mergeAuctionsAt now (h :: t)).adresse
      = (((h :: t).map (·.adresse)).find? truthyStr).getD h.adresse)
    ∧ ((mergeAuctionsAt now (h :: t)).code_postal
      = (((h :: t).map (·.code_postal)).find? truthyStr).getD h.code_postal)
    ∧ ((mergeAuctionsAt now (h :: t)).ville
      = (((h :: t).map (·.ville)).find? truthyStr).getD h.ville)
    ∧ ((mergeAuctionsAt now (h :: t)).department
      = (((h :: t).map (·.department)).find? truthyStr).getD h.department)
    ∧ ((mergeAuctionsAt now (h :: t)).surface
      = (((h :: t).map (·.surface)).find? truthyInt).getD h.surface)
    ∧ ((mergeAuctionsAt now (h :: t)).nb_pieces
      = (((h :: t).map (·.nb_pieces)).find? truthyNat).getD h.nb_pieces)
    ∧ ((mergeAuctionsAt now (h :: t)).type_bien
      = (((h :: t).map (·.type_bien)).find? truthyStr).getD h.type_bien)
    ∧ ((mergeAuctionsAt now (h :: t)).mise_a_prix
      = (((h :: t).map (·.mise_a_prix)).find? truthyInt).getD h.mise_a_prix)
    ∧ ((mergeAuctionsAt now (h :: t)).prix_marche_estime
      = (((h :: t).map (·.prix_marche_estime)).find? truthyInt).getD
          h.prix_marche_estime)
    ∧ ((mergeAuctionsAt now (h :: t)).tribunal
      = (((h :: t).map (·.tribunal)).find? truthyStr).getD h.tribunal)
    ∧ ((mergeAuctionsAt now (h :: t)).avocat_nom
      = (((h :: t).map (·.avocat_nom)).find? truthyStr).getD h.avocat_nom)
    ∧ ((mergeAuctionsAt now (h :: t)).avocat_email
      = (((h :: t).map (·.avocat_email)).find? truthyStr).getD h.avocat_email)
    ∧ ((mergeAuctionsAt now (h :: t)).avocat_telephone
      = (((h :: t).map (·.avocat_telephone)).find? truthyStr).getD
          h.avocat_telephone)
    ∧ ((mergeAuctionsAt now (h :: t)).numero_rg
      = (((h :: t).map (·.numero_rg)).find? truthyStr).getD h.numero_rg)
    ∧ ((mergeAuctionsAt now (h :: t)).date_vente
      = (((h :: t).map (·.date_vente)).find? truthyStr).getD h.date_vente)
    ∧ ((mergeAuctionsAt now (h :: t)).heure_vente
      = (((h :: t).map (·.heure_vente)).find? truthyStr).getD h.heure_vente)
    ∧ ((mergeAuctionsAt now (h :: t)).pv_url
      = (((h :: t).map (·.pv_url)).find? truthyStr).getD h.pv_url)
    ∧ (∀ extra : AuctionData,
        truthyStr (mergeAuctionsAt now (h :: t)).adresse = true →
        (mergeAuctionsAt now ((h :: t) ++ [extra])).adresse
          = (mergeAuctionsAt now (h :: t)).adresse)
    ∧ (∀ extra : AuctionData,
        truthyInt (mergeAuctionsAt now (h :: t)).mise_a_prix = true →
        (mergeAuctionsAt now ((h :: t) ++ [extra])).mise_a_prix
          = (mergeAuctionsAt now (h :: t)).mise_a_prix)
    ∧ (truthyVals ((h :: t).map (·.description_detaillee)) = [] →
        (mergeAuctionsAt now (h :: t)).description_detaillee
          = h.description_detaillee)
    ∧ (∀ v vs, truthyVals ((h :: t).map (·.description_detaillee)) = v :: vs →
        (mergeAuctionsAt now (h :: t)).description_detaillee
          = some (vs.foldl pickLonger v)) := by
  refine ⟨merge_proj_scalar (·.adresse) truthyStr (fun m a => rfl)
      (fun n s m => rfl) now h t,
    merge_proj_scalar (·.code_postal) truthyStr (fun m a => rfl)
      (fun n s m => rfl) now h t,
    merge_proj_scalar (·.ville) truthyStr (fun m a => rfl)
      (fun n s m => rfl) now h t,
    merge_proj_scalar (·.department) truthyStr (fun m a => rfl)
      (fun n s m => rfl) now h t,
    merge_proj_scalar (·.surface) truthyInt (fun m a => rfl)
      (fun n s m => rfl) now h t,
    merge_proj_scalar (·.nb_pieces) truthyNat (fun m a => rfl)
      (fun n s m => rfl) now h t,
    merge_proj_scalar (·.type_bien) truthyStr (fun m a => rfl)
      (fun n s m => rfl) now h t,
    merge_proj_scalar (·.mise_a_prix) truthyInt (fun m a => rfl)
      (fun n s m => rfl) now h t,
    merge_proj_scalar (·.prix_marche_estime) truthyInt (fun m a => rfl)
      (fun n s m => rfl) now h t,
    merge_proj_scalar (·.tribunal) truthyStr (fun m a => rfl)
      (fun n s m => rfl) now h t,
    merge_proj_scalar (·.avocat_nom) truthyStr (fun m a => rfl)
      (fun n s m => rfl) now h t,
    merge_proj_scalar (·.avocat_email) truthyStr (fun m a => rfl)
      (fun n s m => rfl) now h t,
    merge_proj_scalar (·.avocat_telephone) truthyStr (fun m a => rfl)
      (fun n s m => rfl) now h t,
    merge_proj_scalar (·.numero_rg) truthyStr (fun m a => rfl)
      (fun n s m => rfl) now h t,
    merge_proj_scalar (·.date_vente) truthyStr (fun m a => rfl)
      (fun n s m => rfl) now h t,
    merge_proj_scalar (·.heure_vente) truthyStr (fun m a => rfl)
      (fun n s m => rfl) now h t,
    merge_proj_scalar (·.pv_url) truthyStr (fun m a => rfl)
      (fun n s m => rfl) now h t,
    ?_, ?_, (merge_dd_spec now h t).1, (merge_dd_spec now h t).2⟩
  · intro extra htr
    exact merge_no_overwrite (·.adresse) truthyStr (fun m a => rfl)
      (fun n s m => rfl) now h t extra htr
  · intro extra htr
    exact merge_no_overwrite (·.mise_a_prix) truthyInt (fun m a => rfl)
      (fun n s m => rfl) now h t extra htr

/-- C2 witness: at a two-record group, the empty head address is filled from
the second record, and the strictly longer `description_detaillee` wins. -/
theorem merge_scalar_first_nonempty_witness :
    (mergeAuctionsAt "m"
        [{ source := "a", description_detaillee := some "short" },
         { source := "b", adresse := some "12 Rue X",
           description_detaillee := some "longer!" }]).adresse = some "12 Rue X"
    ∧ (mergeAuctionsAt "m"
        [{ source := "a", description_detaillee := some "short" },
         { source := "b", adresse := some "12 Rue X",
           description_detaillee := some "longer!" }]).description_detaillee
      = some "longer!" := by
  have hthm := merge_scalar_first_nonempty "m"
    { source := "a", description_detaillee := some "short" }
    [{ source := "b", adresse := some "12 Rue X",
       description_detaillee := some "longer!" }]
  constructor
  · rw [hthm.1]
    decide
  · rw [hthm.2.2.2.2.2.2.2.2.2.2.2.2.2.2.2.2.2.2.2.2 "short" ["longer!"]
      (by decide)]
    decide

/-! ## Collection-field lemmas (claims C3, C4) -/

theorem pyListUnion_cons (acc : List String) (x : String) (t : List String) :
    pyListUnion acc (x :: t)
      = pyListUnion (if x ∈ acc then acc else acc ++ [x]) t := rfl

theorem pyListUnion_toFinset (acc xs : List String) :
    (pyListUnion acc xs).toFinset = acc.toFinset ∪ xs.toFinset := by
  induction xs generalizing acc with
  | nil => simp [pyListUnion]
  | cons x t ih =>
    rw [pyListUnion_cons, ih]
    by_cases hx : x ∈ acc
    · rw [if_pos hx]
      ext y
      simp only [Finset.mem_union, List.mem_toFinset, List.toFinset_cons,
        Finset.mem_insert]
      constructor
      · rintro (hy | hy)
        · exact Or.inl hy
        · exact Or.inr (Or.inr hy)
      · rintro (hy | rfl | hy)
        · exact Or.inl hy
        · exact Or.inl hx
        · exact Or.inr hy
    · rw [if_neg hx]
      ext y
      simp only [Finset.mem_union, List.mem_toFinset, List.toFinset_cons,
        Finset.mem_insert, List.mem_append, List.mem_singleton]
      constructor
      · rintro ((hy | rfl) | hy)
        · exact Or.inl hy
        · exact Or.inr (Or.inl rfl)
        · exact Or.inr (Or.inr hy)
      · rintro (hy | rfl | hy)
        · exact Or.inl (Or.inl hy)
        · exact Or.inl (Or.inr rfl)
        · exact Or.inr hy

theorem pyListUnion_nodup (acc xs : List String) (h : acc.Nodup) :
    (pyListUnion acc xs).Nodup := by
  induction xs generalizing acc with
  | nil => exact h
  | cons x t ih =>
    rw [pyListUnion_cons]
    by_cases hx : x ∈ acc
    · rw [if_pos hx]
      exact ih acc h
    · rw [if_neg hx]
      refine ih _ ?_
      simp [List.nodup_append, h, hx]

theorem mergeDocs_cons (acc : List Document) (d : Document) (t : List Document) :
    mergeDocs acc (d :: t)
      = mergeDocs (if d.url ∈ acc.map Document.url then acc else acc ++ [d]) t :=
  rfl

theorem mergeDocs_url_toFinset (acc xs : List Document) :
    ((mergeDocs acc xs).map Document.url).toFinset
      = (acc.map Document.url).toFinset ∪ (xs.map Document.url).toFinset := by
  induction xs generalizing acc with
  | nil => simp [mergeDocs]
  | cons d t ih =>
    rw [mergeDocs_cons, ih]
    by_cases hd : d.url ∈ acc.map Document.url
    · rw [if_pos hd]
      ext y
      simp only [Finset.mem_union, List.mem_toFinset, List.map_cons,
        List.toFinset_cons, Finset.mem_insert]
      constructor
      · rintro (hy | hy)
        · exact Or.inl hy
        · exact Or.inr (Or.inr hy)
      · rintro (hy | rfl | hy)
        · exact Or.inl hy
        · exact Or.inl hd
        · exact Or.inr hy
    · rw [if_neg hd]
      ext y
      simp only [Finset.mem_union, List.mem_toFinset, List.map_cons,
        List.toFinset_cons, Finset.mem_insert, List.map_append,
        List.mem_append, List.map_cons, List.map_nil, List.mem_singleton]
      constructor
      · rintro ((hy | rfl) | hy)
        · exact Or.inl hy
        · exact Or.inr (Or.inl rfl)
        · exact Or.inr (Or.inr hy)
      · rintro (hy | rfl | hy)
        · exact Or.inl (Or.inl hy)
        · exact Or.inl (Or.inr rfl)
        · exact Or.inr hy

theorem mergeDocs_url_nodup (acc xs : List Document)
    (h : (acc.map Document.url).Nodup) :
    ((mergeDocs acc xs).map Document.url).Nodup := by
  induction xs generalizing acc with
  | nil => exact h
  | cons d t ih =>
    rw [mergeDocs_cons]
    by_cases hd : d.url ∈ acc.map Document.url
    · rw [if_pos hd]
      exact ih acc h
    · rw [if_neg hd]
      refine ih _ ?_
      rw [List.map_append]
      simp [List.nodup_append, h, hd]

theorem pySortedSet_sorted (xs : List String) :
    (pySortedSet xs).Sorted (· < ·) := by
  have hs : (pySortedSet xs).Sorted (· ≤ ·) :=
    List.sorted_insertionSort (· ≤ ·) xs.dedup
  have hn : (pySortedSet xs).Nodup :=
    ((List.perm_insertionSort (· ≤ ·) xs.dedup).symm).nodup xs.nodup_dedup
  exact hs.lt_of_le hn

theorem pySortedSet_toFinset (xs : List String) :
    (pySortedSet xs).toFinset = xs.toFinset := by
  ext y
  simp only [List.mem_toFinset, pySortedSet]
  rw [(List.perm_insertionSort (· ≤ ·) xs.dedup).mem_iff, List.mem_dedup]

/-- Projection of the merge onto `dates_visite`. -/
theorem merge_dates_fold (now : String) (h b : AuctionData)
    (bs : List AuctionData) :
    (mergeAuctionsAt now (h :: b :: bs)).dates_visite
      = pySortedSet (((b :: bs).map (·.dates_visite)).foldl pyListUnion
          h.dates_visite) := by
  show (finalizeMerge now h.source ((b :: bs).foldl mergeOne h)).dates_visite = _
  show pySortedSet ((b :: bs).foldl mergeOne h).dates_visite = _
  rw [foldl_mergeOne_proj (·.dates_visite) pyListUnion (fun m a => rfl)]

/-- Projection of the merge onto `photos`. -/
theorem merge_photos_fold (now : String) (h b : AuctionData)
    (bs : List AuctionData) :
    (mergeAuctionsAt now (h :: b :: bs)).photos
      = (((b :: bs).map (·.photos)).foldl pyListUnion h.photos).take 30 := by
  show (finalizeMerge now h.source ((b :: bs).foldl mergeOne h)).photos = _
  show (((b :: bs).foldl mergeOne h).photos).take 30 = _
  rw [foldl_mergeOne_proj (·.photos) pyListUnion (fun m a => rfl)]

/-- Projection of the merge onto `documents`. -/
theorem merge_docs_fold (now : String) (h b : AuctionData)
    (bs : List AuctionData) :
    (mergeAuctionsAt now (h :: b :: bs)).documents
      = ((b :: bs).map (·.documents)).foldl mergeDocs h.documents := by
  show (finalizeMerge now h.source ((b :: bs).foldl mergeOne h)).documents = _
  show ((b :: bs).foldl mergeOne h).documents = _
  rw [foldl_mergeOne_proj (·.documents) mergeDocs (fun m a => rfl)]

theorem foldl_pyListUnion_toFinset :
    ∀ (ls : List (List String)) (i : List String),
      (ls.foldl pyListUnion i).toFinset = (i ++ ls.flatten).toFinset := by
  intro ls
  induction ls with
  | nil => intro i; simp
  | cons l t ih =>
    intro i
    rw [List.foldl_cons, ih]
    ext y
    simp only [List.toFinset_append, Finset.mem_union, pyListUnion_toFinset,
      List.flatten, List.mem_toFinset]
    constructor
    · rintro ((hy | hy) | hy)
      · exact Or.inl hy
      · exact Or.inr (by simp [hy])
      · exact Or.inr (by simp; exact Or.inr (by simpa using hy))
    · rintro (hy | hy)
      · exact Or.inl (Or.inl hy)
      · rcases by simpa using hy with hy | hy
        · exact Or.inl (Or.inr hy)
        · exact Or.inr (by simpa using hy)

theorem foldl_pyListUnion_nodup (ls : List (List String)) (i : List String)
    (h : i.Nodup) : (ls.foldl pyListUnion i).Nodup := by
  induction ls generalizing i with
  | nil => exact h
  | cons l t ih =>
    rw [List.foldl_cons]
    exact ih _ (pyListUnion_nodup i l h)

theorem foldl_mergeDocs_url_nodup (ls : List (List Document))
    (i : List Document) (h : (i.map Document.url).Nodup) :
    (((ls.foldl mergeDocs i).map Document.url)).Nodup := by
  induction ls generalizing i with
  | nil => exact h
  | cons l t ih =>
    rw [List.foldl_cons]
    exact ih _ (mergeDocs_url_nodup i l h)

/-! ## Claim C3 -/

/-- The first record of the C3 counterexample: 30 distinct photos and a
document at url `u` named `na`. -/
def fullPhotosRec : AuctionData :=
  { source := "a", hash := some "h",
    photos := (List.range 30).map (fun i => toString i),
    documents := [⟨"pdf", "na", "u"⟩] }

/-- The second record of the C3 counterexample: one new photo and a document
at the same url `u` but named `nb`. -/
def extraPhotoRec : AuctionData :=
  { source := "b", hash := some "h", photos := ["q"],
    documents := [⟨"pdf", "nb", "u"⟩] }

/-- A record whose photo list repeats one url 31 times: only 2 distinct
photos across the pair below, yet the cap still breaks commutativity. -/
def dupPhotosRec : AuctionData :=
  { source := "c", hash := some "h2", photos := List.replicate 31 "p" }

/-- The partner of `dupPhotosRec`, contributing the second distinct photo. -/
def onePhotoRec : AuctionData :=
  { source := "d", hash := some "h2", photos := ["q"] }

/-- C3 counterexample.  `fullPhotosRec` and `extraPhotoRec` share a truthy
hash, hence one dedup key, so they form one merge group, and
`_deduplicate_and_merge` emits exactly their merge in either order.  With 31
distinct photos across the pair the 30-photo cap makes the merged photo set
depend on the order of arrival (photo `q` survives only when its record comes
first), and a same-url document with a different name survives only from the
first record — so the merged `photos` and `documents` sets of `[A, B]` and
`[B, A]` differ.  The second pair shows the failure is not confined to >30
distinct photos: a within-record duplicate (31 copies of one url, 2 distinct
photos in total) also yields order-dependent photo sets, because the merge
never de-duplicates the first record's own list before capping. -/
theorem merge_pair_sets_order_dependent :
    dedupKey fullPhotosRec = dedupKey extraPhotoRec
    ∧ dedupAndMergeAt "n" [fullPhotosRec, extraPhotoRec]
        = [mergeAuctionsAt "n" [fullPhotosRec, extraPhotoRec]]
    ∧ dedupAndMergeAt "n" [extraPhotoRec, fullPhotosRec]
        = [mergeAuctionsAt "n" [extraPhotoRec, fullPhotosRec]]
    ∧ ("q" ∈ (mergeAuctionsAt "n" [extraPhotoRec, fullPhotosRec]).photos)
    ∧ ("q" ∉ (mergeAuctionsAt "n" [fullPhotosRec, extraPhotoRec]).photos)
    ∧ (mergeAuctionsAt "n" [fullPhotosRec, extraPhotoRec]).photos.toFinset
      ≠ (mergeAuctionsAt "n" [extraPhotoRec, fullPhotosRec]).photos.toFinset
    ∧ (⟨"pdf", "na", "u"⟩ : Document)
      ∈ (mergeAuctionsAt "n" [fullPhotosRec, extraPhotoRec]).documents
    ∧ (⟨"pdf", "na", "u"⟩ : Document)
      ∉ (mergeAuctionsAt "n" [extraPhotoRec, fullPhotosRec]).documents
    ∧ (mergeAuctionsAt "n" [fullPhotosRec, extraPhotoRec]).documents.toFinset
      ≠ (mergeAuctionsAt "n" [extraPhotoRec, fullPhotosRec]).documents.toFinset
    ∧ dedupKey dupPhotosRec = dedupKey onePhotoRec
    ∧ (dupPhotosRec.photos ++ onePhotoRec.photos).toFinset.card ≤ 30
    ∧ (mergeAuctionsAt "n" [dupPhotosRec, onePhotoRec]).photos.toFinset
      ≠ (mergeAuctionsAt "n" [onePhotoRec, dupPhotosRec]).photos.toFinset
    := by decide

/-- C3 amended: for a pair merged in either order, `visitDates` agree as sets
and `documents` agree as sets of urls unconditionally — each equals the union
of the two records' contributions; `photos` agree as sets (both orders
yielding the union of the two photo lists) provided each record's photo list
is duplicate-free and the pair has at most 30 distinct photos in total
(otherwise the 30-photo cap can drop order-dependent elements, as the
counterexample shows for both an over-30 pair and a within-record duplicate);
full document dicts agree only up to url. -/
theorem merge_pair_sets_commutative_conditional (now : String)
    (A B : AuctionData) :
    ((mergeAuctionsAt now [A, B]).dates_visite.toFinset
        = A.dates_visite.toFinset ∪ B.dates_visite.toFinset
      ∧ (mergeAuctionsAt now [B, A]).dates_visite.toFinset
        = A.dates_visite.toFinset ∪ B.dates_visite.toFinset)
    ∧ (((mergeAuctionsAt now [A, B]).documents.map Document.url).toFinset
        = (A.documents.map Document.url).toFinset
          ∪ (B.documents.map Document.url).toFinset
      ∧ ((mergeAuctionsAt now [B, A]).documents.map Document.url).toFinset
        = (A.documents.map Document.url).toFinset
          ∪ (B.documents.map Document.url).toFinset)
    ∧ (A.photos.Nodup → B.photos.Nodup →
        (A.photos ++ B.photos).toFinset.card ≤ 30 →
        (mergeAuctionsAt now [A, B]).photos.toFinset
            = (A.photos ++ B.photos).toFinset
          ∧ (mergeAuctionsAt now [B, A]).photos.toFinset
            = (A.photos ++ B.photos).toFinset) := by
  refine ⟨⟨?_, ?_⟩, ⟨?_, ?_⟩, ?_⟩
  · rw [merge_dates_fold, pySortedSet_toFinset]
    show (pyListUnion A.dates_visite B.dates_visite).toFinset = _
    rw [pyListUnion_toFinset]
  · rw [merge_dates_fold, pySortedSet_toFinset]
    show (pyListUnion B.dates_visite A.dates_visite).toFinset = _
    rw [pyListUnion_toFinset, Finset.union_comm]
  · rw [merge_docs_fold]
    show ((mergeDocs A.documents B.documents).map Document.url).toFinset = _
    rw [mergeDocs_url_toFinset]
  · rw [merge_docs_fold]
    show ((mergeDocs B.documents A.documents).map Document.url).toFinset = _
    rw [mergeDocs_url_toFinset, Finset.union_comm]
  · intro hA hB hcard
    have ab : (pyListUnion A.photos B.photos).Nodup :=
      pyListUnion_nodup _ _ hA
    have ba : (pyListUnion B.photos A.photos).Nodup :=
      pyListUnion_nodup _ _ hB
    have tab : (pyListUnion A.photos B.photos).toFinset
        = (A.photos ++ B.photos).toFinset := by
      rw [pyListUnion_toFinset, List.toFinset_append]
    have tba : (pyListUnion B.photos A.photos).toFinset
        = (A.photos ++ B.photos).toFinset := by
      rw [pyListUnion_toFinset, List.toFinset_append, Finset.union_comm]
    have lab : (pyListUnion A.photos B.photos).length ≤ 30 := by
      rw [← List.toFinset_card_of_nodup ab, tab]
      exact hcard
    have lba : (pyListUnion B.photos A.photos).length ≤ 30 := by
      rw [← List.toFinset_card_of_nodup ba, tba]
      exact hcard
    constructor
    · rw [merge_photos_fold]
      show ((pyListUnion A.photos B.photos).take 30).toFinset = _
      rw [List.take_of_length_le lab, tab]
    · rw [merge_photos_fold]
      show ((pyListUnion B.photos A.photos).take 30).toFinset = _
      rw [List.take_of_length_le lba, tba]

/-- C3 witness for the amended statement, at a pair sharing one photo. -/
theorem merge_pair_sets_commutative_conditional_witness :
    (mergeAuctionsAt "n"
        [{ source := "a", photos := ["p1", "p2"], dates_visite := ["d1"] },
         { source := "b", photos := ["p2", "p3"],
           dates_visite := ["d2"] }]).photos.toFinset
      = (mergeAuctionsAt "n"
        [{ source := "b", photos := ["p2", "p3"], dates_visite := ["d2"] },
         { source := "a", photos := ["p1", "p2"],
           dates_visite := ["d1"] }]).photos.toFinset := by
  obtain ⟨e1, e2⟩ := (merge_pair_sets_commutative_conditional "n"
    { source := "a", photos := ["p1", "p2"], dates_visite := ["d1"] }
    { source := "b", photos := ["p2", "p3"], dates_visite := ["d2"] }).2.2
    (by decide) (by decide) (by decide)
  exact e1.trans e2.symm

/-! ## Grouping theory (claims C1, C4) -/

/-- The group of key `k` in the `groups` dict (first match, like `groups[k]`). -/
def groupGet (gs : List (String × List AuctionData)) (k : String) :
    List AuctionData :=
  ((gs.find? (fun p => p.1 == k)).map Prod.snd).getD []

theorem groupGet_cons_pos (k0 : String) (l0 : List AuctionData)
    (rest : List (String × List AuctionData)) (k' : String) (h : k0 = k') :
    groupGet ((k0, l0) :: rest) k' = l0 := by
  unfold groupGet
  rw [List.find?_cons_of_pos _ (by simp [h])]
  rfl

theorem groupGet_cons_neg (k0 : String) (l0 : List AuctionData)
    (rest : List (String × List AuctionData)) (k' : String) (h : ¬k0 = k') :
    groupGet ((k0, l0) :: rest) k' = groupGet rest k' := by
  unfold groupGet
  rw [List.find?_cons_of_neg _ (by simp [h])]

theorem addToGroups_groupGet (gs : List (String × List AuctionData))
    (k : String) (a : AuctionData) (k' : String) :
    groupGet (addToGroups gs k a) k'
      = if k' = k then groupGet gs k ++ [a] else groupGet gs k' := by
  induction gs with
  | nil =>
    by_cases hk : k' = k
    · subst hk
      show groupGet [(k', [a])] k' = _
      rw [if_pos rfl, groupGet_cons_pos _ _ _ _ rfl]
      rfl
    · show groupGet [(k, [a])] k' = _
      rw [if_neg hk, groupGet_cons_neg _ _ _ _ (fun h => hk h.symm)]
  | cons p rest ih =>
    obtain ⟨k0, l0⟩ := p
    show groupGet (if k0 = k then (k0, l0 ++ [a]) :: rest
      else (k0, l0) :: addToGroups rest k a) k' = _
    by_cases h0 : k0 = k
    · subst h0
      rw [if_pos rfl]
      by_cases hk : k' = k0
      · subst hk
        rw [if_pos rfl, groupGet_cons_pos _ _ _ _ rfl,
          groupGet_cons_pos _ _ _ _ rfl]
      · rw [if_neg hk, groupGet_cons_neg _ _ _ _ (fun h => hk h.symm),
          groupGet_cons_neg _ _ _ _ (fun h => hk h.symm)]
    · rw [if_neg h0]
      by_cases hk : k' = k0
      · subst hk
        rw [if_neg (fun he : k' = k => h0 (he ▸ rfl)),
          groupGet_cons_pos _ _ _ _ rfl, groupGet_cons_pos _ _ _ _ rfl]
      · have e2 : groupGet ((k0, l0) :: rest) k = groupGet rest k :=
          groupGet_cons_neg _ _ _ _ h0
        have e3 : groupGet ((k0, l0) :: rest) k' = groupGet rest k' :=
          groupGet_cons_neg _ _ _ _ (fun h => hk h.symm)
        rw [groupGet_cons_neg _ _ _ _ (fun h => hk h.symm), ih, e2, e3]

theorem foldl_groups_groupGet :
    ∀ (l : List AuctionData) (gs : List (String × List AuctionData))
      (k' : String),
      groupGet (l.foldl (fun gs a => addToGroups gs (dedupKey a) a) gs) k'
        = groupGet gs k' ++ l.filter (fun a => dedupKey a == k') := by
  intro l
  induction l with
  | nil => intro gs k'; simp
  | cons a t ih =>
    intro gs k'
    rw [List.foldl_cons, ih, addToGroups_groupGet]
    by_cases hk : k' = dedupKey a
    · subst hk
      rw [if_pos rfl]
      rw [List.filter_cons_of_pos (by simp)]
      simp
    · rw [if_neg hk]
      rw [List.filter_cons_of_neg (by simp [Ne.symm hk])]

theorem groupAuctions_groupGet (auctions : List AuctionData) (k : String) :
    groupGet (groupAuctions auctions) k
      = auctions.filter (fun a => dedupKey a == k) := by
  rw [groupAuctions, foldl_groups_groupGet]
  rfl

theorem addToGroups_keys (gs : List (String × List AuctionData)) (k : String)
    (a : AuctionData) :
    (addToGroups gs k a).map Prod.fst
      = if k ∈ gs.map Prod.fst then gs.map Prod.fst
        else gs.map Prod.fst ++ [k] := by
  induction gs with
  | nil => simp [addToGroups]
  | cons p rest ih =>
    obtain ⟨k0, l0⟩ := p
    show (if k0 = k then (k0, l0 ++ [a]) :: rest
      else (k0, l0) :: addToGroups rest k a).map Prod.fst = _
    by_cases h0 : k0 = k
    · subst h0
      simp
    · rw [if_neg h0, List.map_cons, ih]
      by_cases hmem : k ∈ rest.map Prod.fst
      · rw [if_pos hmem, if_pos (by simp [hmem])]
        rfl
      · rw [if_neg hmem, if_neg ?_]
        · rfl
        · simp only [List.map_cons, List.mem_cons]
          rintro (h | h)
          · exact h0 h.symm
          · exact hmem h

theorem foldl_groups_keys_nodup :
    ∀ (l : List AuctionData) (gs : List (String × List AuctionData)),
      (gs.map Prod.fst).Nodup →
      ((l.foldl (fun gs a => addToGroups gs (dedupKey a) a) gs).map
        Prod.fst).Nodup := by
  intro l
  induction l with
  | nil => intro gs h; exact h
  | cons a t ih =>
    intro gs h
    rw [List.foldl_cons]
    refine ih _ ?_
    rw [addToGroups_keys]
    by_cases hmem : dedupKey a ∈ gs.map Prod.fst
    · rw [if_pos hmem]
      exact h
    · rw [if_neg hmem]
      simp [List.nodup_append, h, hmem]

theorem addToGroups_ne_nil (gs : List (String × List AuctionData)) (k : String)
    (a : AuctionData) (hgs : ∀ q ∈ gs, q.2 ≠ []) :
    ∀ p ∈ addToGroups gs k a, p.2 ≠ [] := by
  induction gs with
  | nil =>
    intro p hp
    simp only [addToGroups, List.mem_singleton] at hp
    subst hp
    simp
  | cons q rest ih =>
    obtain ⟨k0, l0⟩ := q
    intro p hp
    by_cases h0 : k0 = k
    · subst h0
      rw [show addToGroups ((k0, l0) :: rest) k0 a
          = (k0, l0 ++ [a]) :: rest from by simp [addToGroups]] at hp
      rcases List.mem_cons.mp hp with rfl | hp
      · simp
      · exact hgs p (List.mem_cons_of_mem _ hp)
    · rw [show addToGroups ((k0, l0) :: rest) k a
          = (k0, l0) :: addToGroups rest k a from by simp [addToGroups, h0]]
        at hp
      rcases List.mem_cons.mp hp with rfl | hp
      · exact hgs (k0, l0) (List.mem_cons_self _ _)
      · exact ih (fun q hq => hgs q (List.mem_cons_of_mem _ hq)) p hp

theorem groups_ne_nil (auctions : List AuctionData) :
    ∀ p ∈ groupAuctions auctions, p.2 ≠ [] := by
  suffices h : ∀ (l : List AuctionData) gs, (∀ q ∈ gs, q.2 ≠ []) →
      ∀ p ∈ l.foldl (fun gs a => addToGroups gs (dedupKey a) a) gs, p.2 ≠ [] by
    exact h auctions [] (by simp)
  intro l
  induction l with
  | nil => intro gs hgs; exact hgs
  | cons a t ih =>
    intro gs hgs
    rw [List.foldl_cons]
    exact ih _ (addToGroups_ne_nil gs (dedupKey a) a hgs)

theorem find?_self_of_keys_nodup :
    ∀ (gs : List (String × List AuctionData))
      (p : String × List AuctionData),
      (gs.map Prod.fst).Nodup → p ∈ gs →
      gs.find? (fun q => q.1 == p.1) = some p := by
  intro gs
  induction gs with
  | nil => intro p _ hp; cases hp
  | cons q rest ih =>
    intro p hnd hp
    rcases List.mem_cons.mp hp with rfl | hp
    · rw [List.find?_cons_of_pos _ (by simp)]
    · have hq : q.1 ≠ p.1 := by
        intro he
        have : p.1 ∈ rest.map Prod.fst := List.mem_map_of_mem Prod.fst hp
        rw [List.map_cons, List.nodup_cons] at hnd
        exact hnd.1 (he ▸ this)
      rw [List.find?_cons_of_neg _ (by simp [hq])]
      exact ih p (by rw [List.map_cons, List.nodup_cons] at hnd; exact hnd.2) hp

theorem mem_group_eq_filter (auctions : List AuctionData)
    (p : String × List AuctionData) (hp : p ∈ groupAuctions auctions) :
    p.2 = auctions.filter (fun a => dedupKey a == p.1) := by
  have hnd : ((groupAuctions auctions).map Prod.fst).Nodup :=
    foldl_groups_keys_nodup auctions [] (by simp)
  have hfind := find?_self_of_keys_nodup (groupAuctions auctions) p hnd hp
  have := groupAuctions_groupGet auctions p.1
  rw [groupGet, hfind] at this
  exact this

theorem mem_groupGet_exists (gs : List (String × List AuctionData))
    (k : String) (x : AuctionData) (hx : x ∈ groupGet gs k) :
    ∃ p ∈ gs, p.1 = k ∧ x ∈ p.2 := by
  unfold groupGet at hx
  cases hf : gs.find? (fun p => p.1 == k) with
  | none => rw [hf] at hx; cases hx
  | some p =>
    rw [hf] at hx
    refine ⟨p, List.mem_of_find?_eq_some hf, ?_, hx⟩
    have := List.find?_some hf
    simpa using this

/-! ## Claim C4 -/

/-- A record with a unique key violating all three claimed invariants: 31
photos, unsorted duplicated visit dates, two documents with the same url. -/
def badRecord : AuctionData :=
  { source := "x", hash := some "k1",
    photos := (List.range 31).map (fun i => toString i),
    dates_visite := ["b", "a", "a"],
    documents := [⟨"pdf", "n1", "u"⟩, ⟨"pdf", "n2", "u"⟩] }

/-- First record of a two-record group whose own documents repeat a url. -/
def dupDocA : AuctionData :=
  { source := "y", hash := some "k2",
    documents := [⟨"pdf", "m1", "w"⟩, ⟨"pdf", "m2", "w"⟩] }

/-- Second record of that group. -/
def dupDocB : AuctionData :=
  { source := "z", hash := some "k2" }

/-- C4 counterexample: a singleton group is passed through unchanged, so the
deduplicator emits a record with 31 photos, unsorted duplicated `visitDates`
and url-duplicated `documents`; and even a merged group keeps the url
duplicates its first record already had. -/
theorem dedup_output_invariants_counterexample :
    dedupAndMergeAt "n" [badRecord, dupDocA, dupDocB]
      = [badRecord, mergeAuctionsAt "n" [dupDocA, dupDocB]]
    ∧ badRecord.photos.length = 31
    ∧ ¬ badRecord.dates_visite.Sorted (· < ·)
    ∧ ¬ (badRecord.documents.map Document.url).Nodup
    ∧ ¬ ((mergeAuctionsAt "n" [dupDocA, dupDocB]).documents.map
          Document.url).Nodup := by
  refine ⟨by decide, by decide, ?_, by decide, by decide⟩
  intro hs
  have h1 := (List.sorted_cons.mp hs).2
  have h2 := (List.sorted_cons.mp h1).1 "a" (by simp)
  exact lt_irrefl _ h2

/-- C4 amended: every deduplicator output is either an input record passed
through unchanged (its group was a singleton — no invariant is enforced on
it) or the merge of a group of at least two input records; for such merged
records `visitDates` is de-duplicated and sorted strictly ascending and
`photos` has length at most 30 unconditionally, `documents` is de-duplicated
by url provided the group's first record's documents already were, and when
the first record's photos are duplicate-free the merged photo count is
exactly `min 30 (number of distinct photos in the group)` — in particular 5
records contributing 10 distinct photos each yield exactly 30. -/
theorem merged_group_invariants :
    (∀ (now : String) (auctions : List AuctionData),
      ∀ r ∈ dedupAndMergeAt now auctions,
        r ∈ auctions
        ∨ ∃ g1 g2 gs, (∀ x ∈ g1 :: g2 :: gs, x ∈ auctions)
            ∧ r = mergeAuctionsAt now (g1 :: g2 :: gs))
    ∧ (∀ (now : String) (a b : AuctionData) (rest : List AuctionData),
        ((mergeAuctionsAt now (a :: b :: rest)).dates_visite.Sorted (· < ·))
        ∧ (mergeAuctionsAt now (a :: b :: rest)).photos.length ≤ 30
        ∧ ((a.documents.map Document.url).Nodup →
            ((mergeAuctionsAt now (a :: b :: rest)).documents.map
              Document.url).Nodup)
        ∧ (a.photos.Nodup →
            (mergeAuctionsAt now (a :: b :: rest)).photos.length
              = min 30
                  (((a :: b :: rest).map (·.photos)).flatten.toFinset.card)))
    := by
  constructor
  · intro now auctions r hr
    unfold dedupAndMergeAt at hr
    rw [List.mem_map] at hr
    obtain ⟨p, hp, hr⟩ := hr
    have hfilter := mem_group_eq_filter auctions p hp
    have hne := groups_ne_nil auctions p hp
    rcases hp2 : p.2 with _ | ⟨g1, t⟩
    · exact absurd hp2 hne
    · rcases ht : t with _ | ⟨g2, gs⟩
      · left
        subst ht
        rw [hp2] at hr
        have hg1 : g1 ∈ p.2 := by rw [hp2]; exact List.mem_cons_self _ _
        rw [hfilter] at hg1
        have hmem := (List.mem_filter.mp hg1).1
        have hg : g1 = r := hr
        exact hg ▸ hmem
      · right
        refine ⟨g1, g2, gs, ?_, ?_⟩
        · intro x hx
          have hxp : x ∈ p.2 := by rw [hp2, ht]; exact hx
          rw [hfilter] at hxp
          exact (List.mem_filter.mp hxp).1
        · rw [hp2, ht] at hr
          exact hr.symm
  · intro now a b rest
    refine ⟨?_, ?_, ?_, ?_⟩
    · rw [merge_dates_fold]
      exact pySortedSet_sorted _
    · rw [merge_photos_fold]
      exact List.length_take_le _ _
    · intro hnd
      rw [merge_docs_fold]
      exact foldl_mergeDocs_url_nodup _ _ hnd
    · intro hnd
      rw [merge_photos_fold, List.length_take]
      congr 1
      have h1 : (((b :: rest).map (·.photos)).foldl pyListUnion
          a.photos).Nodup := foldl_pyListUnion_nodup _ _ hnd
      rw [← List.toFinset_card_of_nodup h1, foldl_pyListUnion_toFinset]
      have h2 : a.photos ++ ((b :: rest).map (·.photos)).flatten
          = ((a :: b :: rest).map (·.photos)).flatten := rfl
      rw [h2]

/-- The `k`-th synthetic record, contributing 10 distinct photo URLs. -/
def fiveRec (k : Nat) : AuctionData :=
  { source := "s", photos := (List.range 10).map (fun i => toString (10 * k + i)) }

/-- C4 witness for the amended statement: merging 5 records of 10 distinct
photos each yields exactly 30 photos. -/
theorem merged_group_invariants_witness :
    (mergeAuctionsAt "n"
        [fiveRec 0, fiveRec 1, fiveRec 2, fiveRec 3, fiveRec 4]).photos.length
      = 30 := by
  have h := (merged_group_invariants.2 "n" (fiveRec 0) (fiveRec 1)
    [fiveRec 2, fiveRec 3, fiveRec 4]).2.2.2 (by decide)
  rw [h]
  decide

/-! ## Claim C1 -/

/-- C1: the deduplicator keys every record by the first applicable of: its
truthy `hash`; else `"url:" + url` when the url is truthy; else
`"addr:" + adresse + ":" + code_postal` when both are truthy; else the
`"desc:"` fallback from description and price — and two records of a run land
in one merge group exactly when their derived keys are equal (and every
record lands in some group). -/
theorem dedup_key_cascade_and_grouping (auctions : List AuctionData)
    (a b : AuctionData) (ha : a ∈ auctions) (hb : b ∈ auctions) :
    (truthyStr a.hash = true → dedupKey a = a.hash.getD "")
    ∧ (truthyStr a.hash = false → truthyStr a.url = true →
        dedupKey a = "url:" ++ a.url.getD "")
    ∧ (truthyStr a.hash = false → truthyStr a.url = false →
        truthyStr a.adresse = true → truthyStr a.code_postal = true →
        dedupKey a
          = "addr:" ++ a.adresse.getD "" ++ ":" ++ a.code_postal.getD "")
    ∧ (truthyStr a.hash = false → truthyStr a.url = false →
        (truthyStr a.adresse && truthyStr a.code_postal) = false →
        dedupKey a = "desc:" ++ orEmptyStr a.description ++ ":"
          ++ orEmptyPrice a.mise_a_prix)
    ∧ ((∃ p ∈ groupAuctions auctions, a ∈ p.2 ∧ b ∈ p.2)
        ↔ dedupKey a = dedupKey b)
    ∧ (∃ p ∈ groupAuctions auctions, a ∈ p.2) := by
  have hga : a ∈ groupGet (groupAuctions auctions) (dedupKey a) := by
    rw [groupAuctions_groupGet]
    exact List.mem_filter.mpr ⟨ha, by simp⟩
  refine ⟨?_, ?_, ?_, ?_, ?_, ?_⟩
  · intro h
    simp [dedupKey, h]
  · intro h1 h2
    simp [dedupKey, h1, h2]
  · intro h1 h2 h3 h4
    simp [dedupKey, h1, h2, h3, h4]
  · intro h1 h2 h3
    simp [dedupKey, h1, h2, h3]
  · constructor
    · rintro ⟨p, hp, hap, hbp⟩
      have hf := mem_group_eq_filter auctions p hp
      rw [hf] at hap hbp
      have e1 : dedupKey a = p.1 := by
        simpa using (List.mem_filter.mp hap).2
      have e2 : dedupKey b = p.1 := by
        simpa using (List.mem_filter.mp hbp).2
      rw [e1, e2]
    · intro he
      obtain ⟨p, hp, hpk, hap⟩ := mem_groupGet_exists _ _ _ hga
      refine ⟨p, hp, hap, ?_⟩
      have hf := mem_group_eq_filter auctions p hp
      rw [hf]
      refine List.mem_filter.mpr ⟨hb, ?_⟩
      simp [← he, hpk]
  · obtain ⟨p, hp, _, hap⟩ := mem_groupGet_exists _ _ _ hga
    exact ⟨p, hp, hap⟩

/-- A hashed record. -/
def k1Rec : AuctionData :=
  computeHash
    { source := "s", adresse := some "A", code_postal := some "P",
      mise_a_prix := some 7, date_vente := some "D" }

/-- A hashed record with a different address, hence a different key. -/
def k2Rec : AuctionData :=
  computeHash
    { source := "s", adresse := some "A2", code_postal := some "P",
      mise_a_prix := some 7, date_vente := some "D" }

/-- C1 witness: a hashed record is keyed by its hash, and two records with
different hashes do not share a group. -/
theorem dedup_key_cascade_and_grouping_witness :
    dedupKey k1Rec = k1Rec.hash.getD ""
    ∧ ¬(∃ p ∈ groupAuctions [k1Rec, k2Rec], k1Rec ∈ p.2 ∧ k2Rec ∈ p.2) := by
  have h := dedup_key_cascade_and_grouping [k1Rec, k2Rec] k1Rec k2Rec
    (List.mem_cons_self _ _) (by simp)
  exact ⟨h.1 (by decide),
    fun hex => absurd (h.2.2.2.2.1.mp hex) (by decide)⟩

/-! ## Claim C5 -/

theorem foldl_const_left {β : Type} :
    ∀ (l : List β) (i : β), l.foldl (fun m (_ : β) => m) i = i := by
  intro l
  induction l with
  | nil => intro i; rfl
  | cons x t ih => intro i; rw [List.foldl_cons]; exact ih i

theorem merge_hash_eq_head (now : String) (h : AuctionData)
    (t : List AuctionData) :
    (mergeAuctionsAt now (h :: t)).hash = h.hash := by
  cases t with
  | nil => rfl
  | cons b bs =>
    show (finalizeMerge now h.source ((b :: bs).foldl mergeOne h)).hash = h.hash
    show ((b :: bs).foldl mergeOne h).hash = h.hash
    rw [foldl_mergeOne_proj (·.hash) (fun m _ => m) (fun m a => rfl)]
    exact foldl_const_left _ _

theorem merge_source_eq_head (now : String) (h : AuctionData)
    (t : List AuctionData) :
    (mergeAuctionsAt now (h :: t)).source = h.source := by
  cases t with
  | nil => rfl
  | cons b bs => rfl

theorem findD_const {β : Type} (tr : β → Bool) (c : β) (l : List β)
    (hl : ∀ x ∈ l, x = c) : ((l.find? tr).getD c) = c := by
  cases hf : l.find? tr with
  | none => rfl
  | some v =>
    have hv : v ∈ l := List.mem_of_find?_eq_some hf
    simp [hl v hv]

/-- A record whose `adresse` contains a colon, making the hashed content
string ambiguous. -/
def colonA : AuctionData :=
  { source := "s", adresse := some "x:y", mise_a_prix := some 5,
    date_vente := some "d" }

/-- A record with different identity fields but the same rendered content
`"s:x:y:None:5.0:d"`. -/
def colonB : AuctionData :=
  { source := "s", adresse := some "x", code_postal := some "y",
    date_vente := some "5.0:d" }

/-- C5 counterexample: two records with different (address, postalCode,
startingPrice, saleDate) tuples hash to the same content, are grouped
together, and the merge fills `code_postal` from the second record without
recomputing the hash — the merged record's `identityHash` no longer equals
the hash of its current five fields. -/
theorem merged_hash_stale :
    hashContent colonA = hashContent colonB
    ∧ dedupKey (computeHash colonA) = dedupKey (computeHash colonB)
    ∧ dedupAndMergeAt "n" [computeHash colonA, computeHash colonB]
        = [mergeAuctionsAt "n" [computeHash colonA, computeHash colonB]]
    ∧ (mergeAuctionsAt "n" [computeHash colonA, computeHash colonB]).code_postal
        = some "y"
    ∧ (mergeAuctionsAt "n" [computeHash colonA, computeHash colonB]).hash
        ≠ some (md5Model (hashContent
            (mergeAuctionsAt "n" [computeHash colonA, computeHash colonB])))
    := by
  decide

/-- C5 amended: a record's `identityHash` equals the hash of its five identity
fields when `compute_hash` runs (as `_run_scraper` does on every scraped
record); the merge step never recomputes it, but whenever every record of a
merge group agrees with its head on (source, adresse, code_postal,
mise_a_prix, date_vente) — which hash-keyed grouping guarantees unless the
colon-joined content rendering is ambiguous — the merged record's
`identityHash` still equals the hash of its current five fields. -/
theorem hash_consistency_conditional :
    (∀ a : AuctionData,
      (computeHash a).hash = some (md5Model (hashContent (computeHash a))))
    ∧ (∀ (now : String) (h : AuctionData) (t : List AuctionData),
        (∀ x ∈ h :: t, x.hash = some (md5Model (hashContent x))
          ∧ x.source = h.source ∧ x.adresse = h.adresse
          ∧ x.code_postal = h.code_postal ∧ x.mise_a_prix = h.mise_a_prix
          ∧ x.date_vente = h.date_vente) →
        (mergeAuctionsAt now (h :: t)).hash
          = some (md5Model (hashContent (mergeAuctionsAt now (h :: t))))) := by
  constructor
  · intro a
    rfl
  · intro now h t hx
    have had : (mergeAuctionsAt now (h :: t)).adresse = h.adresse := by
      rw [merge_proj_scalar (·.adresse) truthyStr (fun m a => rfl)
        (fun n s m => rfl) now h t]
      refine findD_const truthyStr h.adresse _ ?_
      intro x hxm
      rw [List.mem_map] at hxm
      obtain ⟨y, hy, rfl⟩ := hxm
      exact (hx y hy).2.2.1
    have hcp : (mergeAuctionsAt now (h :: t)).code_postal = h.code_postal := by
      rw [merge_proj_scalar (·.code_postal) truthyStr (fun m a => rfl)
        (fun n s m => rfl) now h t]
      refine findD_const truthyStr h.code_postal _ ?_
      intro x hxm
      rw [List.mem_map] at hxm
      obtain ⟨y, hy, rfl⟩ := hxm
      exact (hx y hy).2.2.2.1
    have hmp : (mergeAuctionsAt now (h :: t)).mise_a_prix = h.mise_a_prix := by
      rw [merge_proj_scalar (·.mise_a_prix) truthyInt (fun m a => rfl)
        (fun n s m => rfl) now h t]
      refine findD_const truthyInt h.mise_a_prix _ ?_
      intro x hxm
      rw [List.mem_map] at hxm
      obtain ⟨y, hy, rfl⟩ := hxm
      exact (hx y hy).2.2.2.2.1
    have hdv : (mergeAuctionsAt now (h :: t)).date_vente = h.date_vente := by
      rw [merge_proj_scalar (·.date_vente) truthyStr (fun m a => rfl)
        (fun n s m => rfl) now h t]
      refine findD_const truthyStr h.date_vente _ ?_
      intro x hxm
      rw [List.mem_map] at hxm
      obtain ⟨y, hy, rfl⟩ := hxm
      exact (hx y hy).2.2.2.2.2
    have hch : hashContent (mergeAuctionsAt now (h :: t)) = hashContent h := by
      unfold hashContent
      rw [merge_source_eq_head now h t, had, hcp, hmp, hdv]
    rw [merge_hash_eq_head now h t, hch]
    exact (hx h (List.mem_cons_self h t)).1

/-- A hashed record sharing identity fields with `sameFieldsB`. -/
def sameFieldsA : AuctionData :=
  computeHash
    { source := "s", adresse := some "A", code_postal := some "P",
      mise_a_prix := some 7, date_vente := some "D", photos := ["p"] }

/-- A hashed record sharing identity fields with `sameFieldsA`. -/
def sameFieldsB : AuctionData :=
  computeHash
    { source := "s", adresse := some "A", code_postal := some "P",
      mise_a_prix := some 7, date_vente := some "D", dates_visite := ["v"] }

/-- C5 witness for the amended statement, at a group agreeing on all five
identity fields. -/
theorem hash_consistency_conditional_witness :
    (mergeAuctionsAt "n" [sameFieldsA, sameFieldsB]).hash
      = some (md5Model (hashContent
          (mergeAuctionsAt "n" [sameFieldsA, sameFieldsB]))) := by
  exact hash_consistency_conditional.2 "n" sameFieldsA [sameFieldsB] (by decide)

end AuctionPlatform
